import Mathlib

/-!
# Route resolution and import aggregation of `tools/goctl/api/gogen/genroutes.go`

A shallow embedding of `getRoutes`, `genRouteImports` and `genRoutes`.

* Go strings are byte sequences: `GoString` is a list of byte values, and
  string literals are written `utf8 "..."`.
* Names that `genroutes.go` uses but that are declared in other files of the
  repository or in the Go standard library with a large definition
  (`apiutil.GetAnnotationValue`, `getHandlerBaseName`, `path.Join`, the `%q`
  verb, the directory constants, the key enumeration of `collection.Set`) are
  the fields of `Deps`; every theorem holds for every value of them.
  `sampleDeps` is one concrete value, used to evaluate the definitions.
* A Go function that can panic returns a `Run`.
* `genRoutes` returns its error together with the list of the calls it has made
  outside the process; what those calls answer is a field of `Env`.
-/

namespace gogen

/-- A Go string: its bytes. -/
abbrev GoString := List Nat

/-- The bytes (UTF-8) of a string literal. -/
def utf8 (s : String) : GoString :=
  s.toList.flatMap fun c => (String.utf8EncodeChar c).map UInt8.toNat

/-- Result of running a Go function: it returns a value or panics. -/
inductive Run (α : Type) where
  | returns (a : α)
  | panics
  deriving DecidableEq

/-- Result of a loop of `getRoutes`: the loop goes on with a value, the function
returns `nil` with an error message, or the function panics. -/
inductive Outcome (α : Type) where
  | ok (a : α)
  | error (msg : GoString)
  | panic
  deriving DecidableEq

/-! ## The specification object model (package `spec`) -/

/-- Modelled from the spec: `spec.Annotation` is declared outside
`genroutes.go`; section 3 describes an annotation namespace as a two-level
mapping `namespace -> key -> value`. -/
structure spec.Annotation where
  Name : GoString
  Properties : List (GoString × GoString)
  deriving DecidableEq

/-- Modelled from the spec: `spec.Route` is declared outside `genroutes.go`;
the fields are those `genroutes.go` reads (`Method`, `Path`, `Annotations`). -/
structure spec.Route where
  Annotations : List spec.Annotation
  Method : GoString
  Path : GoString
  deriving DecidableEq

/-- Modelled from the spec: `spec.Group` is declared outside `genroutes.go`;
the fields are those `genroutes.go` reads (`Annotations`, `Routes`). -/
structure spec.Group where
  Annotations : List spec.Annotation
  Routes : List spec.Route
  deriving DecidableEq

/-- Modelled from the spec: `spec.Service`, of which `genroutes.go` reads
`Groups`. -/
structure spec.Service where
  Groups : List spec.Group
  deriving DecidableEq

/-- Modelled from the spec: `spec.ApiSpec`, of which `genroutes.go` reads
`Service`. -/
structure spec.ApiSpec where
  Service : spec.Service
  deriving DecidableEq

/-! ## `collection.Set` -/

/-- Modelled from the spec: `collection.Set` is declared outside
`genroutes.go`; section 9 describes it as a deduplicating associative structure
keyed by the import string. The keys are kept in the order of first
insertion; the order in which `KeysStr` enumerates them is a field of `Deps`. -/
structure collection.Set where
  keys : List GoString
  deriving DecidableEq

/-- The empty set, `collection.NewSet()`. -/
def collection.NewSet : collection.Set := ⟨[]⟩

/-- Adding a key, `set.AddStr(k)`: a key already present is not added again. -/
def collection.Set.AddStr (s : collection.Set) (k : GoString) : collection.Set :=
  if k ∈ s.keys then s else ⟨s.keys ++ [k]⟩

/-! ## Names declared outside `genroutes.go` -/

/-- The functions and constants `genroutes.go` takes from other files. -/
structure Deps where
  /-- `apiutil.GetAnnotationValue(annotations, key, field)`: value and found. -/
  GetAnnotationValue : List spec.Annotation → GoString → GoString → GoString × Bool
  /-- `getHandlerBaseName(handler)`, declared in another file of the package. -/
  getHandlerBaseName : GoString → GoString
  /-- `path.Join(elem...)` of the Go standard library. -/
  pathJoin : List GoString → GoString
  /-- The text the verb `%q` of package `fmt` prints for a string. -/
  Quote : GoString → GoString
  /-- `vars.ProjectOpenSourceUrl`. -/
  ProjectOpenSourceUrl : GoString
  /-- The constant `contextDir` of the package. -/
  contextDir : GoString
  /-- The constant `handlerDir` of the package. -/
  handlerDir : GoString
  /-- `set.KeysStr()`: the keys of the set, in the order the Go map yields them. -/
  KeysStr : collection.Set → List GoString

/-- The contract of `KeysStr`: it lists each key of the set once, in some order. -/
def Deps.KeysStrEnumerates (d : Deps) : Prop :=
  ∀ s : collection.Set, (d.KeysStr s).Perm s.keys

/-- Modelled from the spec: the constant `folderProperty` is declared outside
`genroutes.go`; the spec names the annotation it reads `server.folder`. -/
def folderProperty : GoString := utf8 "folder"

/-! ## Standard library functions -/

/-- Go's `<` on strings: byte-wise lexicographic order. -/
def strLess : GoString → GoString → Bool
  | [], [] => false
  | [], _ :: _ => true
  | _ :: _, [] => false
  | a :: as, b :: bs => if a < b then true else if b < a then false else strLess as bs

/-- Go's `<=` on strings, as `!(b < a)`. -/
def strLe (a b : GoString) : Prop := strLess b a = false

instance strLe.decidable : DecidableRel strLe := fun a b =>
  inferInstanceAs (Decidable (strLess b a = false))

/-- `sort.Strings`: the strings in ascending order. Go sorts in place with
`Less(i, j) = x[i] < x[j]`; equal strings being indistinguishable, the result
is the one ascending arrangement, computed here by insertion. -/
def sort.Strings (x : List GoString) : List GoString :=
  x.insertionSort strLe

/-- `strings.Join(elems, sep)`. -/
def strings.Join : List GoString → GoString → GoString
  | [], _ => []
  | [a], _ => a
  | a :: b :: rest, sep => a ++ sep ++ strings.Join (b :: rest) sep

/-- `strings.ToUpper` applied to the one-byte string `[c]`, which is what
`handler[:1]` is. An ASCII byte is returned with a lower-case letter replaced
by its upper-case letter; a byte from `0x80` on is not valid UTF-8 by itself,
and `strings.Map(unicode.ToUpper, _)` writes U+FFFD for it. -/
def strings.ToUpperByte (c : Nat) : GoString :=
  if c < 128 then
    if 97 ≤ c ∧ c ≤ 122 then [c - 32] else [c]
  else [0xEF, 0xBF, 0xBD]

/-! ## `genroutes.go` -/

/-- The table `mapping`. -/
def mapping : List (GoString × GoString) :=
  [ (utf8 "delete", utf8 "http.MethodDelete"),
    (utf8 "get", utf8 "http.MethodGet"),
    (utf8 "head", utf8 "http.MethodHead"),
    (utf8 "post", utf8 "http.MethodPost"),
    (utf8 "put", utf8 "http.MethodPut") ]

/-- The map index expression `mapping[k]`: the empty string for an absent key. -/
def mapping.index (k : GoString) : GoString :=
  match mapping.lookup k with
  | some v => v
  | none => []

/-- The struct `route`. -/
structure route where
  method : GoString
  path : GoString
  handler : GoString
  deriving DecidableEq

/-- The struct `group`. -/
structure group where
  routes : List route
  jwtEnabled : Bool
  signatureEnabled : Bool
  authName : GoString
  deriving DecidableEq

/-- The expression `folder + "." + strings.ToUpper(handler[:1]) + handler[1:]`
of lines 165 and 169. The slice expressions panic on an empty `handler`
(`none`). -/
def getRoutes.qualify (folder handler : GoString) : Option GoString :=
  match handler with
  | [] => none
  | c :: rest => some (folder ++ utf8 "." ++ strings.ToUpperByte c ++ rest)

/-- The error of line 160, `fmt.Errorf("missing handler annotation for route
%q", r.Path)`. -/
def getRoutes.missingHandler (d : Deps) (r : spec.Route) : GoString :=
  utf8 "missing handler annotation for route " ++ d.Quote r.Path

/-- The body of the inner loop of `getRoutes` (lines 158 to 176), up to the
`route` value that is appended. -/
def getRoutes.body (d : Deps) (g : spec.Group) (r : spec.Route) : Outcome route :=
  match d.GetAnnotationValue r.Annotations (utf8 "server") (utf8 "handler") with
  | (_, false) => .error (getRoutes.missingHandler d r)
  | (handler, true) =>
    let handler := d.getHandlerBaseName handler ++ utf8 "Handler(serverCtx)"
    match d.GetAnnotationValue r.Annotations (utf8 "server") folderProperty with
    | (folder, true) =>
      match getRoutes.qualify folder handler with
      | none => .panic
      | some handler => .ok ⟨mapping.index r.Method, r.Path, handler⟩
    | (_, false) =>
      match d.GetAnnotationValue g.Annotations (utf8 "server") folderProperty with
      | (folder, true) =>
        match getRoutes.qualify folder handler with
        | none => .panic
        | some handler => .ok ⟨mapping.index r.Method, r.Path, handler⟩
      | (_, false) => .ok ⟨mapping.index r.Method, r.Path, handler⟩

/-- The inner loop of `getRoutes`, `for _, r := range g.Routes`, over the routes
still to visit and the current value of `groupedRoutes`. -/
def getRoutes.inner (d : Deps) (g : spec.Group) : List spec.Route → group → Outcome group
  | [], groupedRoutes => .ok groupedRoutes
  | r :: rs, groupedRoutes =>
    match getRoutes.body d g r with
    | .ok x =>
      getRoutes.inner d g rs { groupedRoutes with routes := groupedRoutes.routes ++ [x] }
    | .error msg => .error msg
    | .panic => .panic

/-- The outer loop of `getRoutes`, `for _, g := range api.Service.Groups`, over
the groups still to visit and the current value of `routes`. -/
def getRoutes.outer (d : Deps) : List spec.Group → List group → Outcome (List group)
  | [], routes => .ok routes
  | g :: gs, routes =>
    match getRoutes.inner d g g.Routes ⟨[], false, false, []⟩ with
    | .ok groupedRoutes => getRoutes.outer d gs (routes ++ [groupedRoutes])
    | .error msg => .error msg
    | .panic => .panic

/-- The function `getRoutes`: the pair of the groups and the error (`none` for
`nil`). A `nil` slice is the empty list. -/
def getRoutes (d : Deps) (api : spec.ApiSpec) : Run (List group × Option GoString) :=
  match getRoutes.outer d api.Service.Groups [] with
  | .ok routes => .returns (routes, none)
  | .error msg => .returns ([], some msg)
  | .panic => .panics

/-- The import entry of a folder, `fmt.Sprintf("%s \"%s\"", folder,
path.Join(parentPkg, handlerDir, folder))`. -/
def genRouteImports.entry (d : Deps) (parentPkg folder : GoString) : GoString :=
  folder ++ utf8 " \"" ++ d.pathJoin [parentPkg, d.handlerDir, folder] ++ utf8 "\""

/-- The inner loop of `genRouteImports`, `for _, route := range group.Routes`,
over the routes still to visit and the current `importSet`. -/
def genRouteImports.inner (d : Deps) (parentPkg : GoString) (g : spec.Group) :
    List spec.Route → collection.Set → collection.Set
  | [], importSet => importSet
  | r :: rs, importSet =>
    match d.GetAnnotationValue r.Annotations (utf8 "server") folderProperty with
    | (folder, true) =>
      genRouteImports.inner d parentPkg g rs
        (importSet.AddStr (genRouteImports.entry d parentPkg folder))
    | (_, false) =>
      match d.GetAnnotationValue g.Annotations (utf8 "server") folderProperty with
      | (folder, true) =>
        genRouteImports.inner d parentPkg g rs
          (importSet.AddStr (genRouteImports.entry d parentPkg folder))
      | (_, false) => genRouteImports.inner d parentPkg g rs importSet

/-- The outer loop of `genRouteImports`, `for _, group := range
api.Service.Groups`. -/
def genRouteImports.outer (d : Deps) (parentPkg : GoString) :
    List spec.Group → collection.Set → collection.Set
  | [], importSet => importSet
  | g :: gs, importSet =>
    genRouteImports.outer d parentPkg gs (genRouteImports.inner d parentPkg g g.Routes importSet)

/-- The first fixed import, `fmt.Sprintf("\"%s/rest\"", vars.ProjectOpenSourceUrl)`. -/
def genRouteImports.restImport (d : Deps) : GoString :=
  utf8 "\"" ++ d.ProjectOpenSourceUrl ++ utf8 "/rest\""

/-- The second fixed import, `fmt.Sprintf("\"%s\"", path.Join(parentPkg, contextDir))`. -/
def genRouteImports.contextImport (d : Deps) (parentPkg : GoString) : GoString :=
  utf8 "\"" ++ d.pathJoin [parentPkg, d.contextDir] ++ utf8 "\""

/-- The value of `importSet` when the loops of `genRouteImports` are over
(lines 132 to 146). -/
def genRouteImports.importSet (d : Deps) (parentPkg : GoString) (api : spec.ApiSpec) :
    collection.Set :=
  genRouteImports.outer d parentPkg api.Service.Groups
    ((collection.NewSet.AddStr (genRouteImports.restImport d)).AddStr
      (genRouteImports.contextImport d parentPkg))

/-- The slice `imports` after `sort.Strings(imports)` (lines 147 and 148): the
list that is joined into the result. -/
def genRouteImports.imports (d : Deps) (parentPkg : GoString) (api : spec.ApiSpec) :
    List GoString :=
  sort.Strings (d.KeysStr (genRouteImports.importSet d parentPkg api))

/-- The function `genRouteImports`. -/
def genRouteImports (d : Deps) (parentPkg : GoString) (api : spec.ApiSpec) : GoString :=
  strings.Join (genRouteImports.imports d parentPkg api) (utf8 "\n\t")

/-! ## `genRoutes` -/

/-- The constant `routesFilename`. -/
def routesFilename : GoString := utf8 "routes.go"

/-- A call `genRoutes` makes that reaches outside the process: the lookup of
the parent package and the operations on the routes file. -/
inductive Effect where
  | getParentPackage (dir : GoString)
  | RemoveOrQuit (filename : GoString)
  | MaybeCreateFile (dir subdir file : GoString)
  | WriteString (s : GoString)
  | Close
  deriving DecidableEq

/-- The functions `genRoutes` takes from other files and from the standard
library, with the results the file system gives them. An error is `none` for
`nil`. -/
structure Env where
  /-- `strings.TrimSpace`. -/
  TrimSpace : GoString → GoString
  /-- `gt.Execute(&builder, map)` on the template `routesAdditionTemplate`, given
  the values of `routes`, `jwt` and `signature`: the text written and the error. -/
  ExecuteGroup : GoString → GoString → GoString → GoString × Option GoString
  /-- `t.Execute(buffer, map)` on the template `routesTemplate`, given the values
  of `importPackages` and `routesAdditions`: the text written and the error. -/
  ExecuteRoutes : GoString → GoString → GoString × Option GoString
  /-- `getParentPackage(dir)`, declared in another file of the package. -/
  getParentPackage : GoString → GoString × Option GoString
  /-- `util.RemoveOrQuit(filename)`. -/
  RemoveOrQuit : GoString → Option GoString
  /-- `apiutil.MaybeCreateFile(dir, subdir, file)`: whether the file was created,
  and the error. -/
  MaybeCreateFile : GoString → GoString → GoString → Bool × Option GoString
  /-- `formatCode(code)`, declared in another file of the package. -/
  formatCode : GoString → GoString
  /-- `fp.WriteString(s)`: the error. -/
  WriteString : GoString → Option GoString

/-- The text `fmt.Fprintf` appends to `gbuilder` for a route (lines 73 to 79). -/
def genRoutes.routeText (r : route) : GoString :=
  utf8 "\n\t\t\x7b\n\t\t\tMethod:  " ++ r.method ++ utf8 ",\n\t\t\tPath:    \"" ++ r.path ++
    utf8 "\",\n\t\t\tHandler: " ++ r.handler ++ utf8 ",\n\t\t\x7d,"

/-- The loop `for _, r := range g.routes` of `genRoutes`, over the routes still
to visit and the current content of `gbuilder`. -/
def genRoutes.inner : List route → GoString → GoString
  | [], gbuilder => gbuilder
  | r :: rs, gbuilder => genRoutes.inner rs (gbuilder ++ genRoutes.routeText r)

/-- The variable `jwt` of lines 81 to 84. -/
def genRoutes.jwt (g : group) : GoString :=
  if g.jwtEnabled then
    utf8 ", ngin.WithJwt(serverCtx.Config." ++ g.authName ++ utf8 ".AccessSecret)"
  else []

/-- The variable `signature` of lines 85 to 88. -/
def genRoutes.signature (g : group) : GoString :=
  if g.signatureEnabled then
    utf8 ", ngin.WithSignature(serverCtx.Config." ++ g.authName ++ utf8 ".Signature)"
  else []

/-- The loop `for _, g := range groups` of `genRoutes` (lines 70 to 96), over the
groups still to visit and the current content of `builder`: the final content,
or the error of `gt.Execute`. -/
def genRoutes.outer (env : Env) : List group → GoString → Except GoString GoString
  | [], builder => .ok builder
  | g :: gs, builder =>
    match env.ExecuteGroup (env.TrimSpace (genRoutes.inner g.routes []))
        (genRoutes.jwt g) (genRoutes.signature g) with
    | (_, some err) => .error err
    | (text, none) => genRoutes.outer env gs (builder ++ text)

/-- The function `genRoutes`: the error it returns (`none` for `nil`) and the
outside calls it has made, in order. The deferred `fp.Close()` is the last call
of the runs that reach line 115. -/
def genRoutes (d : Deps) (env : Env) (dir : GoString) (api : spec.ApiSpec) :
    Run (Option GoString × List Effect) :=
  match getRoutes d api with
  | .panics => .panics
  | .returns (_, some err) => .returns (some err, [])
  | .returns (groups, none) =>
    match genRoutes.outer env groups [] with
    | .error err => .returns (some err, [])
    | .ok builder =>
      match env.getParentPackage dir with
      | (_, some err) => .returns (some err, [.getParentPackage dir])
      | (parentPkg, none) =>
        let filename := d.pathJoin [dir, d.handlerDir, routesFilename]
        match env.RemoveOrQuit filename with
        | some err => .returns (some err, [.getParentPackage dir, .RemoveOrQuit filename])
        | none =>
          match env.MaybeCreateFile dir d.handlerDir routesFilename with
          | (_, some err) =>
            .returns (some err, [.getParentPackage dir, .RemoveOrQuit filename,
              .MaybeCreateFile dir d.handlerDir routesFilename])
          | (false, none) =>
            .returns (none, [.getParentPackage dir, .RemoveOrQuit filename,
              .MaybeCreateFile dir d.handlerDir routesFilename])
          | (true, none) =>
            match env.ExecuteRoutes (genRouteImports d parentPkg api) (env.TrimSpace builder) with
            | (_, some _) =>
              .returns (none, [.getParentPackage dir, .RemoveOrQuit filename,
                .MaybeCreateFile dir d.handlerDir routesFilename, .Close])
            | (buffer, none) =>
              .returns (env.WriteString (env.formatCode buffer),
                [.getParentPackage dir, .RemoveOrQuit filename,
                  .MaybeCreateFile dir d.handlerDir routesFilename,
                  .WriteString (env.formatCode buffer), .Close])

/-! ## Notions the statements use -/

/-- The routes of a specification in traversal order: groups in specification
order, routes in group order. -/
def traversal (api : spec.ApiSpec) : List spec.Route :=
  api.Service.Groups.flatMap fun g => g.Routes

/-- A route has no `handler` value under the `server` annotation. -/
def lacksHandler (d : Deps) (r : spec.Route) : Bool :=
  !(d.GetAnnotationValue r.Annotations (utf8 "server") (utf8 "handler")).2

/-- The folder a route resolves to, in the words of the spec: the route-level
`server.folder`, else the group-level `server.folder`, else none. -/
def resolveFolder (d : Deps) (g : spec.Group) (r : spec.Route) : Option GoString :=
  if (d.GetAnnotationValue r.Annotations (utf8 "server") folderProperty).2 = true then
    some (d.GetAnnotationValue r.Annotations (utf8 "server") folderProperty).1
  else if (d.GetAnnotationValue g.Annotations (utf8 "server") folderProperty).2 = true then
    some (d.GetAnnotationValue g.Annotations (utf8 "server") folderProperty).1
  else none

/-- A folder is resolved by some route of the specification. -/
def resolvesTo (d : Deps) (api : spec.ApiSpec) (f : GoString) : Prop :=
  ∃ g ∈ api.Service.Groups, ∃ r ∈ g.Routes, resolveFolder d g r = some f

/-- The folders the routes of a specification resolve to, in traversal order. -/
def resolvedFolders (d : Deps) (api : spec.ApiSpec) : List GoString :=
  api.Service.Groups.flatMap fun g => g.Routes.filterMap (resolveFolder d g)

/-- A folder name that is not empty, whose first byte is above the double quote
(`0x22`) and whose other bytes are above the space (`0x20`). Names made of
letters, digits, `_`, `-`, `.` and `/` are such. -/
def plainFolder : GoString → Bool
  | [] => false
  | c :: rest => decide (34 < c) && rest.all fun x => decide (32 < x)

/-! ## One value of the outside names, to evaluate the definitions -/

/-- Modelled from the spec: `apiutil.GetAnnotationValue` is declared outside
`genroutes.go`; section 6 gives it as `lookup(annotations, namespace, key) ->
(value, found)` over the two-level mapping, reporting absence. -/
def sample.GetAnnotationValue :
    List spec.Annotation → GoString → GoString → GoString × Bool
  | [], _, _ => ([], false)
  | anno :: rest, key, field =>
    if anno.Name = key then
      match anno.Properties.lookup field with
      | some v => (v, true)
      | none => ([], false)
    else sample.GetAnnotationValue rest key field

/-- Removes the last `n` bytes of `s` when they are `suffix`. -/
def sample.trimSuffix (s suffix : GoString) : GoString :=
  if s.drop (s.length - suffix.length) = suffix then s.take (s.length - suffix.length) else s

/-- Modelled from the spec: `getHandlerBaseName` is declared outside
`genroutes.go`; section 4.1 says it strips a trailing convention suffix if
present. The suffix taken here is `Handler`. -/
def sample.getHandlerBaseName (handler : GoString) : GoString :=
  sample.trimSuffix handler (utf8 "Handler")

/-- The non-empty elements joined by `/`; this is `path.Join` on elements that
are clean paths (no empty, `.` or `..` component, no doubled or trailing
slash). -/
def sample.pathJoin (elem : List GoString) : GoString :=
  strings.Join (elem.filter fun e => e ≠ []) (utf8 "/")

/-- The string between double quotes; this is what `%q` prints for a string of
printable ASCII bytes without a double quote or a backslash. -/
def sample.Quote (s : GoString) : GoString :=
  utf8 "\"" ++ s ++ utf8 "\""

/-- A value of `Deps`: annotations looked up in the two-level mapping, keys
enumerated in the order of insertion. -/
def sampleDeps : Deps where
  GetAnnotationValue := sample.GetAnnotationValue
  getHandlerBaseName := sample.getHandlerBaseName
  pathJoin := sample.pathJoin
  Quote := sample.Quote
  ProjectOpenSourceUrl := utf8 "github.com/tal-tech/go-zero"
  contextDir := utf8 "svc"
  handlerDir := utf8 "handler"
  KeysStr := fun s => s.keys

/-- As `sampleDeps`, with the keys enumerated in the reverse order. -/
def sampleDepsReversed : Deps :=
  { sampleDeps with KeysStr := fun s => s.keys.reverse }

/-- The `server` annotation with the given properties. -/
def sample.server (props : List (String × String)) : List spec.Annotation :=
  [⟨utf8 "server", props.map fun p => (utf8 p.1, utf8 p.2)⟩]

/-- A route with the given method, path and `server` properties. -/
def sample.mkRoute (method path : String) (props : List (String × String)) : spec.Route :=
  ⟨sample.server props, utf8 method, utf8 path⟩

/-- A specification made of the given groups. -/
def sample.mkApi (groups : List spec.Group) : spec.ApiSpec := ⟨⟨groups⟩⟩

/-- A byte is ASCII white space. -/
def sample.isSpace (c : Nat) : Bool :=
  c = 9 ∨ c = 10 ∨ c = 11 ∨ c = 12 ∨ c = 13 ∨ c = 32

/-- Removes the ASCII white space at both ends; this is `strings.TrimSpace` on a
string whose ends hold no other white space. -/
def sample.TrimSpace (s : GoString) : GoString :=
  ((s.dropWhile sample.isSpace).reverse.dropWhile sample.isSpace).reverse

/-- The template `routesAdditionTemplate` with its three fields replaced by the
values; `text/template` prints a string value as it is. -/
def sample.ExecuteGroup (routes jwt signature : GoString) : GoString × Option GoString :=
  (utf8 "\n\tengine.AddRoutes([]rest.Route\x7b\n\t\t" ++ routes ++ utf8 "\n\t\x7d" ++ jwt ++
    signature ++ utf8 ")\n", none)

/-- The template `routesTemplate` with its two fields replaced by the values. -/
def sample.ExecuteRoutes (importPackages routesAdditions : GoString) :
    GoString × Option GoString :=
  (utf8 "// DO NOT EDIT, generated by goctl\npackage handler\n\nimport (\n\t\"net/http\"\n\n\t" ++
    importPackages ++
    utf8 "\n)\n\nfunc RegisterHandlers(engine *rest.Server, serverCtx *svc.ServiceContext) \x7b\n\t" ++
    routesAdditions ++ utf8 "\n\x7d\n", none)

/-- A value of `Env` in which every outside call succeeds: the parent package
is `pkg`, the file is created, the code is left as it is. -/
def sampleEnv : Env where
  TrimSpace := sample.TrimSpace
  ExecuteGroup := sample.ExecuteGroup
  ExecuteRoutes := sample.ExecuteRoutes
  getParentPackage := fun _ => (utf8 "pkg", none)
  RemoveOrQuit := fun _ => none
  MaybeCreateFile := fun _ _ _ => (true, none)
  formatCode := fun code => code
  WriteString := fun _ => none

/-! ## Specifications to evaluate on -/

/-- One group with two routes, the second lacking `server.handler`. -/
def witnessMissingHandler : spec.ApiSpec :=
  sample.mkApi [⟨[], [sample.mkRoute "get" "/a" [("handler", "first")],
    sample.mkRoute "post" "/b" [("folder", "user")]]⟩]

/-- Three groups. The first has `server.folder = b` and two routes: one with its
own `server.folder = a`, one without a folder. The second has no folder and one
route without a folder. The third has no route. -/
def witnessApi : spec.ApiSpec :=
  sample.mkApi
    [ ⟨sample.server [("folder", "b")],
        [ sample.mkRoute "get" "/x" [("handler", "getUser"), ("folder", "a")],
          sample.mkRoute "post" "/y" [("handler", "list")] ]⟩,
      ⟨[], [sample.mkRoute "put" "/z" [("handler", "pingHandler")]]⟩,
      ⟨[], []⟩ ]

/-- What `getRoutes` returns on `witnessApi`. -/
def witnessGroups : List group :=
  [ ⟨[ ⟨utf8 "http.MethodGet", utf8 "/x", utf8 "a.GetUserHandler(serverCtx)"⟩,
       ⟨utf8 "http.MethodPost", utf8 "/y", utf8 "b.ListHandler(serverCtx)"⟩ ], false, false, []⟩,
    ⟨[⟨utf8 "http.MethodPut", utf8 "/z", utf8 "pingHandler(serverCtx)"⟩], false, false, []⟩,
    ⟨[], false, false, []⟩ ]

/-- A group with `server.folder = user` and two routes without a folder. -/
def witnessUserGroup : spec.Group :=
  ⟨sample.server [("folder", "user")],
    [ sample.mkRoute "get" "/a" [("handler", "getUser")],
      sample.mkRoute "post" "/b" [("handler", "addUser")] ]⟩

/-- A group without a folder, whose one route has `server.folder = user`. -/
def witnessUserRouteGroup : spec.Group :=
  ⟨[], [sample.mkRoute "put" "/c" [("handler", "setUser"), ("folder", "user")]]⟩

/-- Two groups whose routes both resolve to folder `user`: at group level in
the first, at route level in the second. -/
def witnessTwoUser : spec.ApiSpec :=
  sample.mkApi [witnessUserGroup, witnessUserRouteGroup]

/-- The first group of `witnessTwoUser` alone. -/
def witnessOneUser : spec.ApiSpec :=
  sample.mkApi [witnessUserGroup]

/-- A specification without any folder annotation. -/
def witnessNoFolder : spec.ApiSpec :=
  sample.mkApi [⟨[], [sample.mkRoute "get" "/a" [("handler", "ping")]]⟩]

/-- Folders `zeta` and `alpha`, in this order. -/
def witnessZetaAlpha : spec.ApiSpec :=
  sample.mkApi
    [ ⟨sample.server [("folder", "zeta")], [sample.mkRoute "get" "/z" [("handler", "zed")]]⟩,
      ⟨[], [sample.mkRoute "get" "/a" [("handler", "ay"), ("folder", "alpha")]]⟩ ]

/-- One route, whose folder annotation begins with an exclamation mark. -/
def witnessBangFolder : spec.ApiSpec :=
  sample.mkApi [⟨[], [sample.mkRoute "get" "/a" [("handler", "ay"), ("folder", "!a")]]⟩]

/-- A group with folder `user` and one route whose handler is `getUser`. -/
def witnessGetUser : spec.ApiSpec :=
  sample.mkApi
    [⟨sample.server [("folder", "user")], [sample.mkRoute "get" "/u" [("handler", "getUser")]]⟩]

/-- A group with folder `user` and one route whose handler name begins with a
letter of two bytes, `é` (`0xC3 0xA9`). -/
def witnessAccent : spec.ApiSpec :=
  sample.mkApi
    [⟨sample.server [("folder", "user")], [sample.mkRoute "get" "/e" [("handler", "élan")]]⟩]

/-- One group whose routes have the method tokens `get`, `patch`, the empty
string and `GET`. -/
def witnessMethods : spec.ApiSpec :=
  sample.mkApi
    [ ⟨[], [ sample.mkRoute "get" "/a" [("handler", "a")],
             sample.mkRoute "patch" "/b" [("handler", "b")],
             sample.mkRoute "" "/c" [("handler", "c")],
             sample.mkRoute "GET" "/d" [("handler", "d")] ]⟩ ]

/-- What `getRoutes` returns on `witnessMethods`. -/
def witnessMethodsGroups : List group :=
  [ ⟨[ ⟨utf8 "http.MethodGet", utf8 "/a", utf8 "aHandler(serverCtx)"⟩,
       ⟨[], utf8 "/b", utf8 "bHandler(serverCtx)"⟩,
       ⟨[], utf8 "/c", utf8 "cHandler(serverCtx)"⟩,
       ⟨[], utf8 "/d", utf8 "dHandler(serverCtx)"⟩ ], false, false, []⟩ ]

/-- The groups of `witnessApi` in another order, the routes of the first group
exchanged. -/
def witnessApiPermuted : spec.ApiSpec :=
  sample.mkApi
    [ ⟨[], []⟩,
      ⟨sample.server [("folder", "b")],
        [ sample.mkRoute "post" "/y" [("handler", "list")],
          sample.mkRoute "get" "/x" [("handler", "getUser"), ("folder", "a")] ]⟩,
      ⟨[], [sample.mkRoute "put" "/z" [("handler", "pingHandler")]]⟩ ]

/-- A group with folder `user` and one route whose handler annotation is
`Handler`, of which `sample.getHandlerBaseName` leaves the empty string. -/
def witnessEmptyBase : spec.ApiSpec :=
  sample.mkApi
    [⟨sample.server [("folder", "user")], [sample.mkRoute "get" "/h" [("handler", "Handler")]]⟩]

/-- A group with `server.folder = b` and one route with its own
`server.folder = a`, whose handler name begins with `é` (`0xC3 0xA9`). -/
def witnessAccentRoute : spec.ApiSpec :=
  sample.mkApi
    [ ⟨sample.server [("folder", "b")],
        [sample.mkRoute "get" "/e" [("handler", "élan"), ("folder", "a")]]⟩ ]

/-- A group with `server.folder = b` and one route without a folder, whose
handler name begins with `é` (`0xC3 0xA9`). -/
def witnessAccentGroup : spec.ApiSpec :=
  sample.mkApi
    [⟨sample.server [("folder", "b")], [sample.mkRoute "get" "/e" [("handler", "élan")]]⟩]

/-! ## The order of Go strings -/

theorem strLess_irrefl (a : GoString) : strLess a a = false := by
  induction a with
  | nil => rfl
  | cons x xs ih => simp [strLess, ih]

theorem strLess_asymm : ∀ a b : GoString, strLess a b = true → strLess b a = false
  | [], [], h => by simp [strLess] at h
  | [], _ :: _, _ => by simp [strLess]
  | _ :: _, [], h => by simp [strLess] at h
  | x :: xs, y :: ys, h => by
    simp only [strLess] at h ⊢
    rcases Nat.lt_trichotomy x y with hxy | hxy | hxy
    · have hyx : ¬ y < x := by omega
      simp [hxy, hyx]
    · subst hxy
      simp only [Nat.lt_irrefl, if_false] at h ⊢
      exact strLess_asymm xs ys h
    · have hyx : ¬ x < y := by omega
      simp [hxy, hyx] at h

theorem strLess_trans : ∀ a b c : GoString,
    strLess a b = true → strLess b c = true → strLess a c = true
  | [], [], _, h, _ => by simp [strLess] at h
  | [], _ :: _, [], _, h => by simp [strLess] at h
  | [], _ :: _, _ :: _, _, _ => by simp [strLess]
  | _ :: _, [], _, h, _ => by simp [strLess] at h
  | _ :: _, _ :: _, [], _, h => by simp [strLess] at h
  | x :: xs, y :: ys, z :: zs, h1, h2 => by
    simp only [strLess] at h1 h2 ⊢
    split_ifs at h1 h2 ⊢ <;> first | rfl | omega | exact strLess_trans xs ys zs h1 h2

theorem strLess_connex : ∀ a b : GoString,
    strLess a b = false → strLess b a = false → a = b
  | [], [], _, _ => rfl
  | [], _ :: _, h, _ => by simp [strLess] at h
  | _ :: _, [], _, h => by simp [strLess] at h
  | x :: xs, y :: ys, h1, h2 => by
    simp only [strLess] at h1 h2
    split_ifs at h1 h2 with h3 h4
    have hxy : x = y := by omega
    rw [hxy, strLess_connex xs ys h1 h2]

theorem strLe_total : IsTotal GoString strLe where
  total a b := by
    unfold strLe
    cases h : strLess b a with
    | false => exact Or.inl rfl
    | true => exact Or.inr (strLess_asymm b a h)

theorem strLe_trans : IsTrans GoString strLe where
  trans a b c hab hbc := by
    unfold strLe at *
    cases h : strLess c a with
    | false => rfl
    | true =>
      cases hcb : strLess c b with
      | true => rw [hcb] at hbc; cases hbc
      | false =>
        cases hba : strLess a b with
        | true => rw [strLess_trans c a b h hba] at hcb; cases hcb
        | false =>
          have hab2 : a = b := strLess_connex a b hba hab
          rw [hab2] at h
          rw [h] at hcb
          cases hcb

theorem strLe_antisymm : IsAntisymm GoString strLe where
  antisymm a b hab hba := strLess_connex a b hba hab

/-! ## `sort.Strings` -/

theorem sort_Strings_perm (x : List GoString) : (sort.Strings x).Perm x :=
  List.perm_insertionSort strLe x

theorem sort_Strings_sorted (x : List GoString) : (sort.Strings x).Sorted strLe :=
  @List.sorted_insertionSort _ strLe _ strLe_total strLe_trans x

/-- Two enumerations of the same strings sort to the same slice. -/
theorem sort_Strings_congr {x y : List GoString} (h : x.Perm y) :
    sort.Strings x = sort.Strings y :=
  @List.eq_of_perm_of_sorted _ strLe strLe_antisymm _ _
    (((sort_Strings_perm x).trans h).trans (sort_Strings_perm y).symm)
    (sort_Strings_sorted x) (sort_Strings_sorted y)

/-- A slice in ascending order that enumerates `x` is `sort.Strings x`. -/
theorem sort_Strings_unique {x l : List GoString} (hp : l.Perm x) (hs : l.Sorted strLe) :
    sort.Strings x = l :=
  @List.eq_of_perm_of_sorted _ strLe strLe_antisymm _ _
    ((sort_Strings_perm x).trans hp.symm) (sort_Strings_sorted x) hs

/-- Without repetition, ascending order is strict. -/
theorem strictly_ascending_of_nodup {l : List GoString} (hs : l.Sorted strLe) (hn : l.Nodup) :
    l.Pairwise fun a b => strLess a b = true := by
  have h := List.Pairwise.and hs hn
  refine h.imp ?_
  intro a b hab
  cases hlt : strLess a b with
  | true => rfl
  | false => exact absurd (strLess_connex a b hlt hab.1) hab.2

/-! ## The loops of `getRoutes` -/

theorem handlerSuffix_eq :
    utf8 "Handler(serverCtx)" =
      72 :: [97, 110, 100, 108, 101, 114, 40, 115, 101, 114, 118, 101, 114, 67, 116, 120, 41] := by
  decide

/-- The unqualified handler expression is never empty, so the slice
expressions of lines 165 and 169 are in range. -/
theorem qualify_handler (folder base : GoString) :
    ∃ c rest, base ++ utf8 "Handler(serverCtx)" = c :: rest ∧
      getRoutes.qualify folder (base ++ utf8 "Handler(serverCtx)") =
        some (folder ++ utf8 "." ++ strings.ToUpperByte c ++ rest) := by
  cases hb : base ++ utf8 "Handler(serverCtx)" with
  | nil =>
    rw [handlerSuffix_eq] at hb
    simp at hb
  | cons c rest => exact ⟨c, rest, rfl, rfl⟩

theorem body_of_lacksHandler {d : Deps} {r : spec.Route} (g : spec.Group)
    (h : lacksHandler d r = true) : getRoutes.body d g r = .error (getRoutes.missingHandler d r) := by
  unfold lacksHandler at h
  rcases hp : d.GetAnnotationValue r.Annotations (utf8 "server") (utf8 "handler") with ⟨v, b⟩
  rw [hp] at h
  simp only [Bool.not_eq_true_eq_eq_false] at h
  subst h
  simp only [getRoutes.body, hp]

/-- The value the loop body appends for a route that has a handler
annotation. -/
theorem body_of_handler {d : Deps} {r : spec.Route} (g : spec.Group) {h : GoString}
    (hh : d.GetAnnotationValue r.Annotations (utf8 "server") (utf8 "handler") = (h, true)) :
    ∃ c rest, d.getHandlerBaseName h ++ utf8 "Handler(serverCtx)" = c :: rest ∧
      getRoutes.body d g r = .ok ⟨mapping.index r.Method, r.Path,
        match resolveFolder d g r with
        | some folder => folder ++ utf8 "." ++ strings.ToUpperByte c ++ rest
        | none => d.getHandlerBaseName h ++ utf8 "Handler(serverCtx)"⟩ := by
  obtain ⟨c, rest, hc, _⟩ := qualify_handler [] (d.getHandlerBaseName h)
  refine ⟨c, rest, hc, ?_⟩
  have hq : ∀ folder, getRoutes.qualify folder (d.getHandlerBaseName h ++ utf8 "Handler(serverCtx)")
      = some (folder ++ utf8 "." ++ strings.ToUpperByte c ++ rest) := by
    intro folder
    rw [hc]
    rfl
  rcases hr : d.GetAnnotationValue r.Annotations (utf8 "server") folderProperty with ⟨a, ra⟩
  rcases hg : d.GetAnnotationValue g.Annotations (utf8 "server") folderProperty with ⟨b, rb⟩
  cases ra <;> cases rb <;> simp [getRoutes.body, hh, hr, hg, hq, resolveFolder]

theorem body_ok_of_handler {d : Deps} {r : spec.Route} (g : spec.Group)
    (h : lacksHandler d r = false) : ∃ x, getRoutes.body d g r = .ok x := by
  unfold lacksHandler at h
  rcases hp : d.GetAnnotationValue r.Annotations (utf8 "server") (utf8 "handler") with ⟨v, b⟩
  rw [hp] at h
  simp only [Bool.not_eq_false_eq_eq_true] at h
  subst h
  obtain ⟨c, rest, _, hb⟩ := body_of_handler g hp
  exact ⟨_, hb⟩

theorem body_ok_path {d : Deps} {g : spec.Group} {r : spec.Route} {x : route}
    (h : getRoutes.body d g r = .ok x) : x.path = r.Path := by
  cases hl : lacksHandler d r with
  | true => rw [body_of_lacksHandler g hl] at h; cases h
  | false =>
    unfold lacksHandler at hl
    rcases hp : d.GetAnnotationValue r.Annotations (utf8 "server") (utf8 "handler") with ⟨v, b⟩
    rw [hp] at hl
    simp only [Bool.not_eq_false_eq_eq_true] at hl
    subst hl
    obtain ⟨c, rest, _, hb⟩ := body_of_handler g hp
    rw [hb] at h
    cases h
    rfl

/-- A completed inner loop has appended one value per route, in order. -/
theorem inner_ok {d : Deps} {g : spec.Group} :
    ∀ (rs : List spec.Route) (acc gr : group), getRoutes.inner d g rs acc = .ok gr →
      ∃ xs, gr = ⟨acc.routes ++ xs, acc.jwtEnabled, acc.signatureEnabled, acc.authName⟩ ∧
        List.Forall₂ (fun r x => getRoutes.body d g r = .ok x) rs xs
  | [], acc, gr, h => by
    simp only [getRoutes.inner, Outcome.ok.injEq] at h
    subst h
    exact ⟨[], by simp, List.Forall₂.nil⟩
  | r :: rs, acc, gr, h => by
    simp only [getRoutes.inner] at h
    cases hb : getRoutes.body d g r with
    | ok x =>
      rw [hb] at h
      obtain ⟨xs, hgr, hxs⟩ := inner_ok rs _ gr h
      exact ⟨x :: xs, by simp [hgr], List.Forall₂.cons hb hxs⟩
    | error msg => rw [hb] at h; cases h
    | panic => rw [hb] at h; cases h

/-- A completed outer loop has appended one group per source group, in order. -/
theorem outer_ok {d : Deps} :
    ∀ (gs : List spec.Group) (acc res : List group), getRoutes.outer d gs acc = .ok res →
      ∃ ys, res = acc ++ ys ∧
        List.Forall₂ (fun g gr => ∃ xs, gr = ⟨xs, false, false, []⟩ ∧
          List.Forall₂ (fun r x => getRoutes.body d g r = .ok x) g.Routes xs) gs ys
  | [], acc, res, h => by
    simp only [getRoutes.outer, Outcome.ok.injEq] at h
    subst h
    exact ⟨[], by simp, List.Forall₂.nil⟩
  | g :: gs, acc, res, h => by
    simp only [getRoutes.outer] at h
    cases hi : getRoutes.inner d g g.Routes ⟨[], false, false, []⟩ with
    | ok gr =>
      rw [hi] at h
      obtain ⟨ys, hres, hys⟩ := outer_ok gs _ res h
      obtain ⟨xs, hgr, hxs⟩ := inner_ok _ _ _ hi
      exact ⟨gr :: ys, by simp [hres], List.Forall₂.cons ⟨xs, by simpa using hgr, hxs⟩ hys⟩
    | error msg => rw [hi] at h; cases h
    | panic => rw [hi] at h; cases h

/-- The result of a successful `getRoutes`, group by group and route by route. -/
theorem getRoutes_ok {d : Deps} {api : spec.ApiSpec} {gs : List group}
    (h : getRoutes d api = .returns (gs, none)) :
    List.Forall₂ (fun g gr => ∃ xs, gr = ⟨xs, false, false, []⟩ ∧
      List.Forall₂ (fun r x => getRoutes.body d g r = .ok x) g.Routes xs)
      api.Service.Groups gs := by
  unfold getRoutes at h
  cases ho : getRoutes.outer d api.Service.Groups [] with
  | ok res =>
    rw [ho] at h
    simp only [Run.returns.injEq, Prod.mk.injEq, and_true] at h
    subst h
    obtain ⟨ys, hres, hys⟩ := outer_ok _ _ _ ho
    simpa [hres] using hys
  | error msg => rw [ho] at h; simp at h
  | panic => rw [ho] at h; cases h

theorem forall₂_getElem? {α β : Type} {R : α → β → Prop} {l₁ : List α} {l₂ : List β}
    (h : List.Forall₂ R l₁ l₂) : ∀ (i : Nat) (a : α), l₁[i]? = some a →
      ∃ b, l₂[i]? = some b ∧ R a b := by
  induction h with
  | nil => intro i a ha; simp at ha
  | cons hab _ ih =>
    intro i a ha
    cases i with
    | zero =>
      simp only [List.getElem?_cons_zero, Option.some.injEq] at ha
      subst ha
      exact ⟨_, by simp, hab⟩
    | succ n =>
      simp only [List.getElem?_cons_succ] at ha
      obtain ⟨b, hb, hr⟩ := ih n a ha
      exact ⟨b, by simpa using hb, hr⟩

/-- The resolved route of the `j`-th route of the `i`-th group. -/
theorem getRoutes_ok_at {d : Deps} {api : spec.ApiSpec} {gs : List group}
    (h : getRoutes d api = .returns (gs, none)) {i j : Nat} {g : spec.Group} {r : spec.Route}
    (hg : api.Service.Groups[i]? = some g) (hr : g.Routes[j]? = some r) :
    ∃ gr x, gs[i]? = some gr ∧ gr.routes[j]? = some x ∧ getRoutes.body d g r = .ok x := by
  obtain ⟨gr, hgr, xs, hxs, hf⟩ := forall₂_getElem? (getRoutes_ok h) i g hg
  obtain ⟨x, hx, hb⟩ := forall₂_getElem? hf j r hr
  refine ⟨gr, x, hgr, ?_, hb⟩
  rw [hxs]
  exact hx

/-! ## Failure of `getRoutes` -/

theorem inner_of_find_some {d : Deps} {g : spec.Group} :
    ∀ (rs : List spec.Route) (acc : group) (r : spec.Route),
      rs.find? (lacksHandler d) = some r →
      getRoutes.inner d g rs acc = .error (getRoutes.missingHandler d r)
  | [], _, _, h => by simp at h
  | r0 :: rs, acc, r, h => by
    cases hl : lacksHandler d r0 with
    | true =>
      rw [List.find?_cons_of_pos _ hl] at h
      cases h
      simp only [getRoutes.inner, body_of_lacksHandler g hl]
    | false =>
      rw [List.find?_cons_of_neg _ (by simp [hl])] at h
      obtain ⟨x, hx⟩ := body_ok_of_handler g hl
      simp only [getRoutes.inner, hx]
      exact inner_of_find_some rs _ r h

theorem inner_of_find_none {d : Deps} {g : spec.Group} :
    ∀ (rs : List spec.Route) (acc : group), rs.find? (lacksHandler d) = none →
      ∃ gr, getRoutes.inner d g rs acc = .ok gr
  | [], acc, _ => ⟨acc, rfl⟩
  | r0 :: rs, acc, h => by
    cases hl : lacksHandler d r0 with
    | true =>
      rw [List.find?_cons_of_pos _ hl] at h
      cases h
    | false =>
      rw [List.find?_cons_of_neg _ (by simp [hl])] at h
      obtain ⟨x, hx⟩ := body_ok_of_handler g hl
      simp only [getRoutes.inner, hx]
      exact inner_of_find_none rs _ h

theorem outer_of_find_some {d : Deps} :
    ∀ (gs : List spec.Group) (acc : List group) (r : spec.Route),
      (gs.flatMap fun g => g.Routes).find? (lacksHandler d) = some r →
      getRoutes.outer d gs acc = .error (getRoutes.missingHandler d r)
  | [], _, _, h => by simp at h
  | g :: gs, acc, r, h => by
    rw [List.flatMap_cons, List.find?_append] at h
    cases hg : g.Routes.find? (lacksHandler d) with
    | some r0 =>
      rw [hg] at h
      simp only [Option.or_some, Option.some.injEq] at h
      subst h
      simp only [getRoutes.outer, inner_of_find_some _ _ _ hg]
    | none =>
      rw [hg] at h
      simp only [Option.none_or] at h
      obtain ⟨gr, hgr⟩ := inner_of_find_none (g := g) g.Routes ⟨[], false, false, []⟩ hg
      simp only [getRoutes.outer, hgr]
      exact outer_of_find_some gs _ r h

theorem outer_of_find_none {d : Deps} :
    ∀ (gs : List spec.Group) (acc : List group),
      (gs.flatMap fun g => g.Routes).find? (lacksHandler d) = none →
      ∃ res, getRoutes.outer d gs acc = .ok res
  | [], acc, _ => ⟨acc, rfl⟩
  | g :: gs, acc, h => by
    rw [List.flatMap_cons, List.find?_append] at h
    cases hg : g.Routes.find? (lacksHandler d) with
    | some r0 =>
      rw [hg] at h
      simp at h
    | none =>
      rw [hg] at h
      simp only [Option.none_or] at h
      obtain ⟨gr, hgr⟩ := inner_of_find_none (g := g) g.Routes ⟨[], false, false, []⟩ hg
      simp only [getRoutes.outer, hgr]
      exact outer_of_find_none gs _ h

/-- With a route lacking its handler, `getRoutes` returns `nil` and the error of
the first such route. -/
theorem getRoutes_of_find_some {d : Deps} {api : spec.ApiSpec} {r : spec.Route}
    (h : (traversal api).find? (lacksHandler d) = some r) :
    getRoutes d api = .returns ([], some (getRoutes.missingHandler d r)) := by
  unfold getRoutes
  rw [outer_of_find_some _ _ _ h]

/-- With a handler on every route, `getRoutes` returns groups and no error. -/
theorem getRoutes_of_find_none {d : Deps} {api : spec.ApiSpec}
    (h : (traversal api).find? (lacksHandler d) = none) :
    ∃ gs, getRoutes d api = .returns (gs, none) := by
  unfold getRoutes
  obtain ⟨res, hres⟩ := outer_of_find_none api.Service.Groups [] h
  rw [hres]
  exact ⟨res, rfl⟩

/-! ## Claims on `getRoutes` -/

/-- C1. `getRoutes` returns an error if and only if some route of the
specification has no `handler` value under the `server` annotation; the groups
it returns with an error are `nil`, and the error is the one of line 160 for the
first such route in traversal order (every route before it has a handler);
when no route lacks its handler, `getRoutes` returns groups and no error. -/
theorem getRoutes_fails_iff_missing_handler (d : Deps) (api : spec.ApiSpec) :
    ((∃ gs msg, getRoutes d api = .returns (gs, some msg)) ↔
        ∃ r ∈ traversal api, lacksHandler d r = true) ∧
    (∀ gs msg, getRoutes d api = .returns (gs, some msg) →
        gs = [] ∧ ∃ pre r post, traversal api = pre ++ r :: post ∧
          (∀ x ∈ pre, lacksHandler d x = false) ∧ lacksHandler d r = true ∧
          msg = utf8 "missing handler annotation for route " ++ d.Quote r.Path) ∧
    ((∀ r ∈ traversal api, lacksHandler d r = false) →
        ∃ gs, getRoutes d api = .returns (gs, none)) := by
  cases hf : (traversal api).find? (lacksHandler d) with
  | none =>
    obtain ⟨res, hres⟩ := getRoutes_of_find_none hf
    have hall : ∀ r ∈ traversal api, lacksHandler d r = false := by
      intro r hr
      have := List.find?_eq_none.1 hf r hr
      simpa using this
    refine ⟨⟨?_, ?_⟩, ?_, fun _ => ⟨res, hres⟩⟩
    · rintro ⟨gs, msg, h⟩
      rw [hres] at h
      simp at h
    · rintro ⟨r, hr, hl⟩
      rw [hall r hr] at hl
      cases hl
    · intro gs msg h
      rw [hres] at h
      simp at h
  | some r =>
    have hres := getRoutes_of_find_some hf
    obtain ⟨hl, pre, post, hsplit, hpre⟩ := List.find?_eq_some.1 hf
    refine ⟨⟨fun _ => ⟨r, ?_, hl⟩, fun _ => ⟨_, _, hres⟩⟩, ?_, ?_⟩
    · rw [hsplit]
      simp
    · intro gs msg h
      rw [hres] at h
      simp only [Run.returns.injEq, Prod.mk.injEq, Option.some.injEq] at h
      refine ⟨h.1.symm, pre, r, post, hsplit, ?_, hl, h.2.symm⟩
      intro x hx
      simpa using hpre x hx
    · intro hall
      have hr : r ∈ traversal api := by
        rw [hsplit]
        simp
      rw [hall r hr] at hl
      cases hl

/-- C1, evaluated: one group with two routes, the second lacking
`server.handler`; the error names `/b` and no group is returned. -/
theorem getRoutes_fails_iff_missing_handler_witness :
    getRoutes sampleDeps witnessMissingHandler =
        .returns ([], some (utf8 "missing handler annotation for route \"/b\"")) ∧
      ∃ r ∈ traversal witnessMissingHandler, lacksHandler sampleDeps r = true :=
  ⟨by decide,
    (getRoutes_fails_iff_missing_handler sampleDeps witnessMissingHandler).1.1
      ⟨[], utf8 "missing handler annotation for route \"/b\"", by decide⟩⟩

/-- The route-level folder comes first, as the code computes it: on a
successful `getRoutes`, a route with a handler annotation `h` and its own
`server.folder = a`, in a group with `server.folder = b`, resolves to
`a + "." +` the handler call `getHandlerBaseName(h) + "Handler(serverCtx)"` with
`strings.ToUpper` applied to its first byte; `b` does not occur in the
expression. -/
theorem getRoutes_route_folder_precedes (d : Deps) (api : spec.ApiSpec) (gs : List group)
    (i j : Nat) (g : spec.Group) (r : spec.Route) (h a b : GoString)
    (hok : getRoutes d api = .returns (gs, none))
    (hg : api.Service.Groups[i]? = some g) (hr : g.Routes[j]? = some r)
    (hh : d.GetAnnotationValue r.Annotations (utf8 "server") (utf8 "handler") = (h, true))
    (ha : d.GetAnnotationValue r.Annotations (utf8 "server") folderProperty = (a, true))
    (_hb : d.GetAnnotationValue g.Annotations (utf8 "server") folderProperty = (b, true)) :
    ∃ gr x c rest, gs[i]? = some gr ∧ gr.routes[j]? = some x ∧
      d.getHandlerBaseName h ++ utf8 "Handler(serverCtx)" = c :: rest ∧
      x.handler = a ++ utf8 "." ++ strings.ToUpperByte c ++ rest := by
  obtain ⟨gr, x, hgr, hx, hbody⟩ := getRoutes_ok_at hok hg hr
  obtain ⟨c, rest, hc, hb⟩ := body_of_handler g hh
  rw [hb] at hbody
  cases hbody
  exact ⟨gr, _, c, rest, hgr, hx, hc, by simp [resolveFolder, ha]⟩

/-- The route-level folder comes first on the first route of `witnessApi` (`a`
on the route, `b` on the group). -/
theorem getRoutes_route_folder_precedes_witness :
    getRoutes sampleDeps witnessApi = .returns (witnessGroups, none) ∧
      ∃ gr x c rest, witnessGroups[0]? = some gr ∧ gr.routes[0]? = some x ∧
        sampleDeps.getHandlerBaseName (utf8 "getUser") ++ utf8 "Handler(serverCtx)" = c :: rest ∧
        x.handler = utf8 "a" ++ utf8 "." ++ strings.ToUpperByte c ++ rest :=
  ⟨by decide,
    getRoutes_route_folder_precedes sampleDeps witnessApi witnessGroups 0 0
      ⟨sample.server [("folder", "b")],
        [ sample.mkRoute "get" "/x" [("handler", "getUser"), ("folder", "a")],
          sample.mkRoute "post" "/y" [("handler", "list")] ]⟩
      (sample.mkRoute "get" "/x" [("handler", "getUser"), ("folder", "a")])
      (utf8 "getUser") (utf8 "a") (utf8 "b")
      (by decide) (by decide) (by decide) (by decide) (by decide) (by decide)⟩

/-- The group-level folder is the fallback, as the code computes it: on a
successful `getRoutes`, a route with a handler annotation `h` and no
`server.folder` of its own, in a group with `server.folder = b`, resolves to
`b + "." +` the handler call `getHandlerBaseName(h) + "Handler(serverCtx)"` with
`strings.ToUpper` applied to its first byte. -/
theorem getRoutes_group_folder_fallback (d : Deps) (api : spec.ApiSpec) (gs : List group)
    (i j : Nat) (g : spec.Group) (r : spec.Route) (h b : GoString)
    (hok : getRoutes d api = .returns (gs, none))
    (hg : api.Service.Groups[i]? = some g) (hr : g.Routes[j]? = some r)
    (hh : d.GetAnnotationValue r.Annotations (utf8 "server") (utf8 "handler") = (h, true))
    (ha : (d.GetAnnotationValue r.Annotations (utf8 "server") folderProperty).2 = false)
    (hb : d.GetAnnotationValue g.Annotations (utf8 "server") folderProperty = (b, true)) :
    ∃ gr x c rest, gs[i]? = some gr ∧ gr.routes[j]? = some x ∧
      d.getHandlerBaseName h ++ utf8 "Handler(serverCtx)" = c :: rest ∧
      x.handler = b ++ utf8 "." ++ strings.ToUpperByte c ++ rest := by
  obtain ⟨gr, x, hgr, hx, hbody⟩ := getRoutes_ok_at hok hg hr
  obtain ⟨c, rest, hc, hbd⟩ := body_of_handler g hh
  rw [hbd] at hbody
  cases hbody
  exact ⟨gr, _, c, rest, hgr, hx, hc, by simp [resolveFolder, ha, hb]⟩

/-- The group-level folder is the fallback on the second route of `witnessApi`
(no folder on the route, `b` on the group). -/
theorem getRoutes_group_folder_fallback_witness :
    getRoutes sampleDeps witnessApi = .returns (witnessGroups, none) ∧
      ∃ gr x c rest, witnessGroups[0]? = some gr ∧ gr.routes[1]? = some x ∧
        sampleDeps.getHandlerBaseName (utf8 "list") ++ utf8 "Handler(serverCtx)" = c :: rest ∧
        x.handler = utf8 "b" ++ utf8 "." ++ strings.ToUpperByte c ++ rest :=
  ⟨by decide,
    getRoutes_group_folder_fallback sampleDeps witnessApi witnessGroups 0 1
      ⟨sample.server [("folder", "b")],
        [ sample.mkRoute "get" "/x" [("handler", "getUser"), ("folder", "a")],
          sample.mkRoute "post" "/y" [("handler", "list")] ]⟩
      (sample.mkRoute "post" "/y" [("handler", "list")])
      (utf8 "list") (utf8 "b")
      (by decide) (by decide) (by decide) (by decide) (by decide) (by decide)⟩

/-- C4. No-folder case: on a successful `getRoutes`, a route with a handler
annotation `h`, where neither the route nor its group has `server.folder`,
resolves to exactly `getHandlerBaseName(h) + "Handler(serverCtx)"`. -/
theorem getRoutes_no_folder_unqualified (d : Deps) (api : spec.ApiSpec) (gs : List group)
    (i j : Nat) (g : spec.Group) (r : spec.Route) (h : GoString)
    (hok : getRoutes d api = .returns (gs, none))
    (hg : api.Service.Groups[i]? = some g) (hr : g.Routes[j]? = some r)
    (hh : d.GetAnnotationValue r.Annotations (utf8 "server") (utf8 "handler") = (h, true))
    (ha : (d.GetAnnotationValue r.Annotations (utf8 "server") folderProperty).2 = false)
    (hb : (d.GetAnnotationValue g.Annotations (utf8 "server") folderProperty).2 = false) :
    ∃ gr x, gs[i]? = some gr ∧ gr.routes[j]? = some x ∧
      x.handler = d.getHandlerBaseName h ++ utf8 "Handler(serverCtx)" := by
  obtain ⟨gr, x, hgr, hx, hbody⟩ := getRoutes_ok_at hok hg hr
  obtain ⟨c, rest, _, hbd⟩ := body_of_handler g hh
  rw [hbd] at hbody
  cases hbody
  exact ⟨gr, _, hgr, hx, by simp [resolveFolder, ha, hb]⟩

/-- C4, evaluated on the route of the second group of `witnessApi`. -/
theorem getRoutes_no_folder_unqualified_witness :
    getRoutes sampleDeps witnessApi = .returns (witnessGroups, none) ∧
      ∃ gr x, witnessGroups[1]? = some gr ∧ gr.routes[0]? = some x ∧
        x.handler =
          sampleDeps.getHandlerBaseName (utf8 "pingHandler") ++ utf8 "Handler(serverCtx)" :=
  ⟨by decide,
    getRoutes_no_folder_unqualified sampleDeps witnessApi witnessGroups 1 0
      ⟨[], [sample.mkRoute "put" "/z" [("handler", "pingHandler")]]⟩
      (sample.mkRoute "put" "/z" [("handler", "pingHandler")])
      (utf8 "pingHandler")
      (by decide) (by decide) (by decide) (by decide) (by decide) (by decide)⟩

theorem forall₂_body_paths {d : Deps} {g : spec.Group} {rs : List spec.Route} {xs : List route}
    (h : List.Forall₂ (fun r x => getRoutes.body d g r = .ok x) rs xs) :
    xs.map (fun x => x.path) = rs.map (fun r => r.Path) := by
  induction h with
  | nil => rfl
  | cons hb _ ih => simp [ih, body_ok_path hb]

/-- C5. A successful `getRoutes` returns as many groups as the specification
has; the `i`-th returned group corresponds to the `i`-th source group: it has as
many routes, and the paths of its routes are the paths of the source routes in
the same order. A source group without routes gives a group whose route
sequence is empty. -/
theorem getRoutes_preserves_shape (d : Deps) (api : spec.ApiSpec) (gs : List group)
    (hok : getRoutes d api = .returns (gs, none)) :
    gs.length = api.Service.Groups.length ∧
    ∀ (i : Nat) (g : spec.Group), api.Service.Groups[i]? = some g →
      ∃ gr, gs[i]? = some gr ∧ gr.routes.length = g.Routes.length ∧
        gr.routes.map (fun x => x.path) = g.Routes.map (fun r => r.Path) ∧
        (g.Routes = [] → gr.routes = []) := by
  have hf := getRoutes_ok hok
  refine ⟨hf.length_eq.symm, ?_⟩
  intro i g hg
  obtain ⟨gr, hgr, xs, hxs, hrs⟩ := forall₂_getElem? hf i g hg
  subst hxs
  refine ⟨_, hgr, hrs.length_eq.symm, forall₂_body_paths hrs, ?_⟩
  intro hnil
  have hlen := hrs.length_eq
  rw [hnil] at hlen
  exact List.length_eq_zero.1 hlen.symm

/-- C5, evaluated on `witnessApi`, whose third group has no route. -/
theorem getRoutes_preserves_shape_witness :
    getRoutes sampleDeps witnessApi = .returns (witnessGroups, none) ∧
      witnessGroups.length = 3 ∧ witnessGroups[2]? = some ⟨[], false, false, []⟩ ∧
      witnessGroups.length = witnessApi.Service.Groups.length :=
  ⟨by decide, by decide, by decide,
    (getRoutes_preserves_shape sampleDeps witnessApi witnessGroups (by decide)).1⟩

/-! ## The import set -/

theorem mem_AddStr (s : collection.Set) (k x : GoString) :
    x ∈ (s.AddStr k).keys ↔ x ∈ s.keys ∨ x = k := by
  unfold collection.Set.AddStr
  split_ifs with h
  · constructor
    · exact Or.inl
    · rintro (hx | hx)
      · exact hx
      · rw [hx]; exact h
  · simp

theorem nodup_AddStr (s : collection.Set) (k : GoString) (h : s.keys.Nodup) :
    (s.AddStr k).keys.Nodup := by
  unfold collection.Set.AddStr
  split_ifs with hk
  · exact h
  · exact List.Nodup.append h (List.nodup_singleton k) (by simpa using hk)

/-- One turn of the inner loop of `genRouteImports` adds the entry of the
folder the route resolves to, if any. -/
theorem imports_inner_cons (d : Deps) (parentPkg : GoString) (g : spec.Group) (r : spec.Route)
    (rs : List spec.Route) (s : collection.Set) :
    genRouteImports.inner d parentPkg g (r :: rs) s =
      genRouteImports.inner d parentPkg g rs
        (match resolveFolder d g r with
         | some f => s.AddStr (genRouteImports.entry d parentPkg f)
         | none => s) := by
  rcases hr : d.GetAnnotationValue r.Annotations (utf8 "server") folderProperty with ⟨a, ra⟩
  rcases hg : d.GetAnnotationValue g.Annotations (utf8 "server") folderProperty with ⟨b, rb⟩
  cases ra <;> cases rb <;> simp [genRouteImports.inner, resolveFolder, hr, hg]

theorem mem_imports_inner (d : Deps) (parentPkg : GoString) (g : spec.Group) (x : GoString) :
    ∀ (rs : List spec.Route) (s : collection.Set),
      x ∈ (genRouteImports.inner d parentPkg g rs s).keys ↔
        x ∈ s.keys ∨ ∃ r ∈ rs, ∃ f, resolveFolder d g r = some f ∧
          x = genRouteImports.entry d parentPkg f
  | [], s => by simp [genRouteImports.inner]
  | r :: rs, s => by
    rw [imports_inner_cons, mem_imports_inner d parentPkg g x rs]
    cases hf : resolveFolder d g r with
    | none => simp [hf]
    | some f =>
      simp only [mem_AddStr, List.mem_cons, exists_eq_or_imp, hf, Option.some.injEq]
      constructor
      · rintro ((h | h) | h)
        · exact Or.inl h
        · exact Or.inr (Or.inl ⟨f, rfl, h⟩)
        · exact Or.inr (Or.inr h)
      · rintro (h | ⟨f2, hf2, h⟩ | h)
        · exact Or.inl (Or.inl h)
        · subst hf2; exact Or.inl (Or.inr h)
        · exact Or.inr h

theorem nodup_imports_inner (d : Deps) (parentPkg : GoString) (g : spec.Group) :
    ∀ (rs : List spec.Route) (s : collection.Set), s.keys.Nodup →
      (genRouteImports.inner d parentPkg g rs s).keys.Nodup
  | [], s, h => by simpa [genRouteImports.inner] using h
  | r :: rs, s, h => by
    rw [imports_inner_cons]
    apply nodup_imports_inner d parentPkg g rs
    cases resolveFolder d g r with
    | none => exact h
    | some f => exact nodup_AddStr _ _ h

theorem mem_imports_outer (d : Deps) (parentPkg : GoString) (x : GoString) :
    ∀ (gs : List spec.Group) (s : collection.Set),
      x ∈ (genRouteImports.outer d parentPkg gs s).keys ↔
        x ∈ s.keys ∨ ∃ g ∈ gs, ∃ r ∈ g.Routes, ∃ f, resolveFolder d g r = some f ∧
          x = genRouteImports.entry d parentPkg f
  | [], s => by simp [genRouteImports.outer]
  | g :: gs, s => by
    simp only [genRouteImports.outer]
    rw [mem_imports_outer d parentPkg x gs, mem_imports_inner]
    simp only [List.mem_cons, exists_eq_or_imp]
    exact or_assoc

theorem nodup_imports_outer (d : Deps) (parentPkg : GoString) :
    ∀ (gs : List spec.Group) (s : collection.Set), s.keys.Nodup →
      (genRouteImports.outer d parentPkg gs s).keys.Nodup
  | [], s, h => by simpa [genRouteImports.outer] using h
  | g :: gs, s, h => by
    simp only [genRouteImports.outer]
    exact nodup_imports_outer d parentPkg gs _ (nodup_imports_inner d parentPkg g _ _ h)

/-- The keys of the import set: the two fixed imports and the entry of every
folder some route resolves to. -/
theorem mem_importSet (d : Deps) (parentPkg : GoString) (api : spec.ApiSpec) (x : GoString) :
    x ∈ (genRouteImports.importSet d parentPkg api).keys ↔
      x = genRouteImports.restImport d ∨ x = genRouteImports.contextImport d parentPkg ∨
        ∃ f, resolvesTo d api f ∧ x = genRouteImports.entry d parentPkg f := by
  unfold genRouteImports.importSet resolvesTo
  rw [mem_imports_outer, mem_AddStr, mem_AddStr]
  simp only [collection.NewSet, List.not_mem_nil, false_or]
  constructor
  · rintro ((h | h) | ⟨g, hg, r, hr, f, hf, h⟩)
    · exact Or.inl h
    · exact Or.inr (Or.inl h)
    · exact Or.inr (Or.inr ⟨f, ⟨g, hg, r, hr, hf⟩, h⟩)
  · rintro (h | h | ⟨f, ⟨g, hg, r, hr, hf⟩, h⟩)
    · exact Or.inl (Or.inl h)
    · exact Or.inl (Or.inr h)
    · exact Or.inr ⟨g, hg, r, hr, f, hf, h⟩

theorem nodup_importSet (d : Deps) (parentPkg : GoString) (api : spec.ApiSpec) :
    (genRouteImports.importSet d parentPkg api).keys.Nodup := by
  unfold genRouteImports.importSet
  apply nodup_imports_outer
  apply nodup_AddStr
  apply nodup_AddStr
  exact List.nodup_nil

/-- The sorted slice enumerates the keys of the import set. -/
theorem imports_perm (d : Deps) (hK : d.KeysStrEnumerates) (parentPkg : GoString)
    (api : spec.ApiSpec) :
    (genRouteImports.imports d parentPkg api).Perm
      (genRouteImports.importSet d parentPkg api).keys :=
  (sort_Strings_perm _).trans (hK _)

theorem mem_imports (d : Deps) (hK : d.KeysStrEnumerates) (parentPkg : GoString)
    (api : spec.ApiSpec) (x : GoString) :
    x ∈ genRouteImports.imports d parentPkg api ↔
      x = genRouteImports.restImport d ∨ x = genRouteImports.contextImport d parentPkg ∨
        ∃ f, resolvesTo d api f ∧ x = genRouteImports.entry d parentPkg f := by
  rw [(imports_perm d hK parentPkg api).mem_iff, mem_importSet]

theorem nodup_imports (d : Deps) (hK : d.KeysStrEnumerates) (parentPkg : GoString)
    (api : spec.ApiSpec) : (genRouteImports.imports d parentPkg api).Nodup :=
  (imports_perm d hK parentPkg api).nodup_iff.2 (nodup_importSet d parentPkg api)

/-- Specifications that resolve to the same folders give the same imports,
under any two enumerations of the keys. -/
theorem imports_congr (d e : Deps) (hd : d.KeysStrEnumerates) (he : e.KeysStrEnumerates)
    (parentPkg : GoString) (api api2 : spec.ApiSpec)
    (hkeys : ∀ x, x ∈ (genRouteImports.importSet d parentPkg api).keys ↔
      x ∈ (genRouteImports.importSet e parentPkg api2).keys) :
    genRouteImports.imports d parentPkg api = genRouteImports.imports e parentPkg api2 := by
  unfold genRouteImports.imports
  apply sort_Strings_congr
  have hp : (genRouteImports.importSet d parentPkg api).keys.Perm
      (genRouteImports.importSet e parentPkg api2).keys :=
    (List.perm_ext_iff_of_nodup (nodup_importSet d parentPkg api)
      (nodup_importSet e parentPkg api2)).2 hkeys
  exact ((hd _).trans hp).trans (he _).symm

theorem imports_congr_folders (d : Deps) (hK : d.KeysStrEnumerates) (parentPkg : GoString)
    (api api2 : spec.ApiSpec) (h : ∀ f, resolvesTo d api f ↔ resolvesTo d api2 f) :
    genRouteImports d parentPkg api = genRouteImports d parentPkg api2 := by
  unfold genRouteImports
  rw [imports_congr d d hK hK parentPkg api api2]
  intro x
  rw [mem_importSet, mem_importSet]
  simp only [h]

theorem sampleDeps_enumerates : sampleDeps.KeysStrEnumerates :=
  fun _ => List.Perm.refl _

/-! ## Claims on `genRouteImports` -/

/-- C6. Import deduplication: no entry occurs twice in the list that is joined
into the result; inserting a route whose resolved folder is already resolved
by some route of the specification, at any place of any group, leaves the
result unchanged; so does inserting a group, at any place, all of whose routes
resolve to such folders. -/
theorem genRouteImports_deduplicates (d : Deps) (hK : d.KeysStrEnumerates)
    (parentPkg : GoString) (api : spec.ApiSpec) :
    (genRouteImports.imports d parentPkg api).Nodup ∧
    (∀ (pre post : List spec.Group) (g : spec.Group) (rpre rpost : List spec.Route)
        (r : spec.Route) (f : GoString),
        api.Service.Groups = pre ++ g :: post → g.Routes = rpre ++ rpost →
        resolveFolder d g r = some f → resolvesTo d api f →
        genRouteImports d parentPkg ⟨⟨pre ++ ⟨g.Annotations, rpre ++ r :: rpost⟩ :: post⟩⟩ =
          genRouteImports d parentPkg api) ∧
    (∀ (pre post : List spec.Group) (g : spec.Group),
        api.Service.Groups = pre ++ post →
        (∀ r ∈ g.Routes, ∀ f, resolveFolder d g r = some f → resolvesTo d api f) →
        genRouteImports d parentPkg ⟨⟨pre ++ g :: post⟩⟩ = genRouteImports d parentPkg api) := by
  refine ⟨nodup_imports d hK parentPkg api, ?_, ?_⟩
  · intro pre post g rpre rpost r f hgs hrs hf hres
    apply imports_congr_folders d hK
    intro f2
    constructor
    · rintro ⟨g0, hg0, r0, hr0, h0⟩
      simp only [List.mem_append, List.mem_cons] at hg0
      rcases hg0 with hg0 | hg0 | hg0
      · exact ⟨g0, by rw [hgs]; simp [hg0], r0, hr0, h0⟩
      · subst hg0
        simp only [List.mem_append, List.mem_cons] at hr0
        have h1 : resolveFolder d g r0 = some f2 := h0
        rcases hr0 with hr0 | hr0 | hr0
        · exact ⟨g, by rw [hgs]; simp, r0, by rw [hrs]; simp [hr0], h1⟩
        · subst hr0
          rw [hf] at h1
          cases h1
          exact hres
        · exact ⟨g, by rw [hgs]; simp, r0, by rw [hrs]; simp [hr0], h1⟩
      · exact ⟨g0, by rw [hgs]; simp [hg0], r0, hr0, h0⟩
    · rintro ⟨g0, hg0, r0, hr0, h0⟩
      rw [hgs] at hg0
      simp only [List.mem_append, List.mem_cons] at hg0
      rcases hg0 with hg0 | hg0 | hg0
      · exact ⟨g0, by simp [hg0], r0, hr0, h0⟩
      · subst hg0
        rw [hrs] at hr0
        simp only [List.mem_append] at hr0
        refine ⟨⟨g0.Annotations, rpre ++ r :: rpost⟩, by simp, r0, ?_, h0⟩
        rcases hr0 with hr0 | hr0 <;> simp [hr0]
      · exact ⟨g0, by simp [hg0], r0, hr0, h0⟩
  · intro pre post g hgs hall
    apply imports_congr_folders d hK
    intro f2
    constructor
    · rintro ⟨g0, hg0, r0, hr0, h0⟩
      simp only [List.mem_append, List.mem_cons] at hg0
      rcases hg0 with hg0 | hg0 | hg0
      · exact ⟨g0, by rw [hgs]; simp [hg0], r0, hr0, h0⟩
      · subst hg0
        exact hall r0 hr0 f2 h0
      · exact ⟨g0, by rw [hgs]; simp [hg0], r0, hr0, h0⟩
    · rintro ⟨g0, hg0, r0, hr0, h0⟩
      rw [hgs] at hg0
      simp only [List.mem_append] at hg0
      rcases hg0 with hg0 | hg0
      · exact ⟨g0, by simp [hg0], r0, hr0, h0⟩
      · exact ⟨g0, by simp [hg0], r0, hr0, h0⟩

/-- C6, evaluated: two groups whose routes both resolve to folder `user` give
exactly one `user` entry. -/
theorem genRouteImports_deduplicates_witness :
    sampleDeps.KeysStrEnumerates ∧
      (genRouteImports.imports sampleDeps (utf8 "pkg") witnessTwoUser).Nodup ∧
      genRouteImports.imports sampleDeps (utf8 "pkg") witnessTwoUser =
        [ utf8 "\"github.com/tal-tech/go-zero/rest\"", utf8 "\"pkg/svc\"",
          utf8 "user \"pkg/handler/user\"" ] ∧
      genRouteImports sampleDeps (utf8 "pkg") witnessTwoUser =
        genRouteImports sampleDeps (utf8 "pkg") witnessOneUser :=
  ⟨sampleDeps_enumerates,
    (genRouteImports_deduplicates sampleDeps sampleDeps_enumerates (utf8 "pkg") witnessTwoUser).1,
    by decide,
    (genRouteImports_deduplicates sampleDeps sampleDeps_enumerates (utf8 "pkg")
      witnessOneUser).2.2 [witnessUserGroup] [] witnessUserRouteGroup rfl (by
        intro r hr f hf
        have hr2 : r = sample.mkRoute "put" "/c" [("handler", "setUser"), ("folder", "user")] := by
          simpa [witnessUserRouteGroup] using hr
        subst hr2
        have hf2 : resolveFolder sampleDeps witnessUserRouteGroup
            (sample.mkRoute "put" "/c" [("handler", "setUser"), ("folder", "user")]) =
            some (utf8 "user") := by decide
        rw [hf2] at hf
        cases hf
        exact ⟨witnessUserGroup, by decide,
          sample.mkRoute "get" "/a" [("handler", "getUser")], by decide, by decide⟩)⟩

/-- C7. Import content: an entry is in the list joined into the result if and
only if it is the quoted `ProjectOpenSourceUrl + "/rest"`, or the quoted join
of `parentPkg` and `contextDir`, or, for a route whose folder resolves to `f`
(route level, else group level), `f`, a space and the quoted join of
`parentPkg`, `handlerDir` and `f`. When no route resolves to a folder, the
entries are the two fixed ones. -/
theorem genRouteImports_content (d : Deps) (hK : d.KeysStrEnumerates)
    (parentPkg : GoString) (api : spec.ApiSpec) :
    (∀ e, e ∈ genRouteImports.imports d parentPkg api ↔
      e = utf8 "\"" ++ d.ProjectOpenSourceUrl ++ utf8 "/rest\"" ∨
      e = utf8 "\"" ++ d.pathJoin [parentPkg, d.contextDir] ++ utf8 "\"" ∨
      ∃ g ∈ api.Service.Groups, ∃ r ∈ g.Routes, ∃ f, resolveFolder d g r = some f ∧
        e = f ++ utf8 " \"" ++ d.pathJoin [parentPkg, d.handlerDir, f] ++ utf8 "\"") ∧
    ((∀ g ∈ api.Service.Groups, ∀ r ∈ g.Routes, resolveFolder d g r = none) →
      ∀ e, e ∈ genRouteImports.imports d parentPkg api ↔
        e = utf8 "\"" ++ d.ProjectOpenSourceUrl ++ utf8 "/rest\"" ∨
        e = utf8 "\"" ++ d.pathJoin [parentPkg, d.contextDir] ++ utf8 "\"") := by
  have hmem : ∀ e, e ∈ genRouteImports.imports d parentPkg api ↔
      e = utf8 "\"" ++ d.ProjectOpenSourceUrl ++ utf8 "/rest\"" ∨
      e = utf8 "\"" ++ d.pathJoin [parentPkg, d.contextDir] ++ utf8 "\"" ∨
      ∃ g ∈ api.Service.Groups, ∃ r ∈ g.Routes, ∃ f, resolveFolder d g r = some f ∧
        e = f ++ utf8 " \"" ++ d.pathJoin [parentPkg, d.handlerDir, f] ++ utf8 "\"" := by
    intro e
    rw [mem_imports d hK]
    unfold resolvesTo genRouteImports.restImport genRouteImports.contextImport
      genRouteImports.entry
    constructor
    · rintro (h | h | ⟨f, ⟨g, hg, r, hr, hf⟩, h⟩)
      · exact Or.inl h
      · exact Or.inr (Or.inl h)
      · exact Or.inr (Or.inr ⟨g, hg, r, hr, f, hf, h⟩)
    · rintro (h | h | ⟨g, hg, r, hr, f, hf, h⟩)
      · exact Or.inl h
      · exact Or.inr (Or.inl h)
      · exact Or.inr (Or.inr ⟨f, ⟨g, hg, r, hr, hf⟩, h⟩)
  refine ⟨hmem, ?_⟩
  intro hnone e
  rw [hmem e]
  constructor
  · rintro (h | h | ⟨g, hg, r, hr, f, hf, _⟩)
    · exact Or.inl h
    · exact Or.inr h
    · rw [hnone g hg r hr] at hf
      cases hf
  · rintro (h | h)
    · exact Or.inl h
    · exact Or.inr (Or.inl h)

/-- C7, evaluated: without any folder annotation the list is the two fixed
entries; with folder `user` it holds the `user` entry. -/
theorem genRouteImports_content_witness :
    sampleDeps.KeysStrEnumerates ∧
      genRouteImports.imports sampleDeps (utf8 "pkg") witnessNoFolder =
        [utf8 "\"github.com/tal-tech/go-zero/rest\"", utf8 "\"pkg/svc\""] ∧
      utf8 "user \"pkg/handler/user\"" ∈
        genRouteImports.imports sampleDeps (utf8 "pkg") witnessOneUser :=
  ⟨sampleDeps_enumerates, by decide,
    ((genRouteImports_content sampleDeps sampleDeps_enumerates (utf8 "pkg") witnessOneUser).1
      (utf8 "user \"pkg/handler/user\"")).2
      (Or.inr (Or.inr ⟨witnessUserGroup, by decide,
        sample.mkRoute "get" "/a" [("handler", "getUser")], by decide,
        utf8 "user", by decide, by decide⟩))⟩

/-- C8. Import ordering: the result is the join with `"\n\t"` of a list that is
in strictly ascending byte-wise order. -/
theorem genRouteImports_strictly_ascending (d : Deps) (hK : d.KeysStrEnumerates)
    (parentPkg : GoString) (api : spec.ApiSpec) :
    genRouteImports d parentPkg api =
        strings.Join (genRouteImports.imports d parentPkg api) (utf8 "\n\t") ∧
      (genRouteImports.imports d parentPkg api).Pairwise fun a b => strLess a b = true :=
  ⟨rfl, strictly_ascending_of_nodup (sort_Strings_sorted _) (nodup_imports d hK parentPkg api)⟩

/-- C8, evaluated on `witnessApi`, with the keys enumerated in reverse order. -/
theorem genRouteImports_strictly_ascending_witness :
    sampleDepsReversed.KeysStrEnumerates ∧
      genRouteImports.imports sampleDepsReversed (utf8 "pkg") witnessApi =
        [ utf8 "\"github.com/tal-tech/go-zero/rest\"", utf8 "\"pkg/svc\"",
          utf8 "a \"pkg/handler/a\"", utf8 "b \"pkg/handler/b\"" ] ∧
      (genRouteImports.imports sampleDepsReversed (utf8 "pkg") witnessApi).Pairwise
        fun a b => strLess a b = true :=
  ⟨fun s => List.reverse_perm s.keys, by decide,
    (genRouteImports_strictly_ascending sampleDepsReversed
      (fun s => List.reverse_perm s.keys) (utf8 "pkg") witnessApi).2⟩

/-! ## Independence of the enumeration order -/

theorem body_enum (d : Deps) (enum : collection.Set → List GoString) (g : spec.Group)
    (r : spec.Route) :
    getRoutes.body { d with KeysStr := enum } g r = getRoutes.body d g r := rfl

theorem inner_enum (d : Deps) (enum : collection.Set → List GoString) (g : spec.Group) :
    ∀ (rs : List spec.Route) (acc : group),
      getRoutes.inner { d with KeysStr := enum } g rs acc = getRoutes.inner d g rs acc
  | [], _ => rfl
  | r :: rs, acc => by
    simp only [getRoutes.inner, body_enum]
    cases getRoutes.body d g r with
    | ok x => exact inner_enum d enum g rs _
    | error msg => rfl
    | panic => rfl

theorem outer_enum (d : Deps) (enum : collection.Set → List GoString) :
    ∀ (gs : List spec.Group) (acc : List group),
      getRoutes.outer { d with KeysStr := enum } gs acc = getRoutes.outer d gs acc
  | [], _ => rfl
  | g :: gs, acc => by
    simp only [getRoutes.outer, inner_enum]
    cases getRoutes.inner d g g.Routes ⟨[], false, false, []⟩ with
    | ok x => exact outer_enum d enum gs _
    | error msg => rfl
    | panic => rfl

/-- C10. Determinism: whatever order `KeysStr` enumerates the keys of the set
in, `genRouteImports` returns the same string; and `getRoutes` does not depend
on that order at all. -/
theorem genRouteImports_deterministic (d : Deps) (enum : collection.Set → List GoString)
    (hK : d.KeysStrEnumerates) (hE : ∀ s : collection.Set, (enum s).Perm s.keys)
    (parentPkg : GoString) (api : spec.ApiSpec) :
    genRouteImports { d with KeysStr := enum } parentPkg api = genRouteImports d parentPkg api ∧
      getRoutes { d with KeysStr := enum } api = getRoutes d api := by
  constructor
  · unfold genRouteImports
    rw [imports_congr { d with KeysStr := enum } d hE hK parentPkg api api]
    intro x
    rw [mem_importSet, mem_importSet]
    exact Iff.rfl
  · unfold getRoutes
    rw [outer_enum]

/-- C10, evaluated on `witnessApi`: insertion order against reverse order. -/
theorem genRouteImports_deterministic_witness :
    sampleDeps.KeysStrEnumerates ∧
      (∀ s : collection.Set, (s.keys.reverse).Perm s.keys) ∧
      genRouteImports sampleDepsReversed (utf8 "pkg") witnessApi =
        genRouteImports sampleDeps (utf8 "pkg") witnessApi :=
  ⟨sampleDeps_enumerates, fun s => List.reverse_perm s.keys,
    (genRouteImports_deterministic sampleDeps (fun s => s.keys.reverse) sampleDeps_enumerates
      (fun s => List.reverse_perm s.keys) (utf8 "pkg") witnessApi).1⟩

/-! ## Where the fixed imports sort -/

theorem mem_resolvedFolders (d : Deps) (api : spec.ApiSpec) (f : GoString) :
    f ∈ resolvedFolders d api ↔ resolvesTo d api f := by
  unfold resolvedFolders resolvesTo
  simp only [List.mem_flatMap, List.mem_filterMap]

theorem plainFolder_bytes {f : GoString} (h : plainFolder f = true) :
    (∃ c rest, f = c :: rest ∧ 34 < c) ∧ ∀ x ∈ f, 32 < x := by
  cases f with
  | nil => simp [plainFolder] at h
  | cons c rest =>
    simp only [plainFolder, Bool.and_eq_true, decide_eq_true_eq, List.all_eq_true] at h
    refine ⟨⟨c, rest, rfl, h.1⟩, ?_⟩
    intro x hx
    rcases List.mem_cons.1 hx with hx | hx
    · omega
    · exact h.2 x hx

theorem entry_eq (d : Deps) (parentPkg f : GoString) :
    genRouteImports.entry d parentPkg f =
      f ++ 32 :: (34 :: (d.pathJoin [parentPkg, d.handlerDir, f] ++ [34])) := by
  have h1 : utf8 " \"" = [32, 34] := by decide
  have h2 : utf8 "\"" = [34] := by decide
  simp [genRouteImports.entry, h1, h2]

theorem restImport_eq (d : Deps) :
    genRouteImports.restImport d = 34 :: (d.ProjectOpenSourceUrl ++ utf8 "/rest\"") := by
  have h2 : utf8 "\"" = [34] := by decide
  simp [genRouteImports.restImport, h2]

theorem contextImport_eq (d : Deps) (parentPkg : GoString) :
    genRouteImports.contextImport d parentPkg =
      34 :: (d.pathJoin [parentPkg, d.contextDir] ++ utf8 "\"") := by
  have h2 : utf8 "\"" = [34] := by decide
  simp [genRouteImports.contextImport, h2]

/-- A space after the shorter name sorts before any further byte of the longer
name, so entries compare as their folder names do. -/
theorem strLess_append_space : ∀ (f g t u : GoString), strLess f g = true →
    (∀ x ∈ g, 32 < x) → strLess (f ++ 32 :: t) (g ++ u) = true
  | [], [], _, _, h, _ => by simp [strLess] at h
  | [], c :: g, t, u, _, hg => by
    have hc : 32 < c := hg c (by simp)
    simp [strLess, hc]
  | _ :: _, [], _, _, h, _ => by simp [strLess] at h
  | a :: f, b :: g, t, u, h, hg => by
    simp only [strLess, List.cons_append] at h ⊢
    split_ifs at h ⊢ with h1 h2
    · rfl
    · exact strLess_append_space f g t u h (fun x hx => hg x (by simp [hx]))

theorem entry_strLess (d : Deps) (parentPkg : GoString) {f g : GoString}
    (h : strLess f g = true) (hg : plainFolder g = true) :
    strLess (genRouteImports.entry d parentPkg f) (genRouteImports.entry d parentPkg g) = true := by
  rw [entry_eq, entry_eq]
  exact strLess_append_space f g _ _ h (plainFolder_bytes hg).2

theorem quoted_strLess_entry (d : Deps) (parentPkg : GoString) (t : GoString) {g : GoString}
    (hg : plainFolder g = true) :
    strLess (34 :: t) (genRouteImports.entry d parentPkg g) = true := by
  obtain ⟨⟨c, rest, hc, h34⟩, _⟩ := plainFolder_bytes hg
  rw [entry_eq, hc]
  simp [strLess, h34]

/-- The sorted import list when every resolved folder is a plain name: the
fixed imports in ascending order, then the entries of the folders in ascending
order of folder name. -/
theorem imports_eq_fixed_then_folders (d : Deps) (hK : d.KeysStrEnumerates)
    (parentPkg : GoString) (api : spec.ApiSpec)
    (hplain : ∀ f ∈ resolvedFolders d api, plainFolder f = true) :
    genRouteImports.imports d parentPkg api =
      sort.Strings ((collection.NewSet.AddStr (genRouteImports.restImport d)).AddStr
          (genRouteImports.contextImport d parentPkg)).keys ++
        (sort.Strings (resolvedFolders d api).dedup).map (genRouteImports.entry d parentPkg) := by
  have hseedNodup : ((collection.NewSet.AddStr (genRouteImports.restImport d)).AddStr
      (genRouteImports.contextImport d parentPkg)).keys.Nodup :=
    nodup_AddStr _ _ (nodup_AddStr _ _ List.nodup_nil)
  have hfixedMem : ∀ e, e ∈ sort.Strings ((collection.NewSet.AddStr
      (genRouteImports.restImport d)).AddStr (genRouteImports.contextImport d parentPkg)).keys ↔
      e = genRouteImports.restImport d ∨ e = genRouteImports.contextImport d parentPkg := by
    intro e
    rw [(sort_Strings_perm _).mem_iff, mem_AddStr, mem_AddStr]
    simp [collection.NewSet]
  have hfoldMem : ∀ f, f ∈ sort.Strings (resolvedFolders d api).dedup ↔
      f ∈ resolvedFolders d api := by
    intro f
    rw [(sort_Strings_perm _).mem_iff, List.mem_dedup]
  have hfixed := strictly_ascending_of_nodup (sort_Strings_sorted _)
    ((sort_Strings_perm _).nodup_iff.2 hseedNodup)
  have hfold := strictly_ascending_of_nodup (sort_Strings_sorted (resolvedFolders d api).dedup)
    ((sort_Strings_perm _).nodup_iff.2 (List.nodup_dedup _))
  have hstrict : (sort.Strings ((collection.NewSet.AddStr (genRouteImports.restImport d)).AddStr
        (genRouteImports.contextImport d parentPkg)).keys ++
      (sort.Strings (resolvedFolders d api).dedup).map (genRouteImports.entry d parentPkg)).Pairwise
      fun a b => strLess a b = true := by
    rw [List.pairwise_append]
    refine ⟨hfixed, ?_, ?_⟩
    · rw [List.pairwise_map]
      refine List.Pairwise.imp_of_mem ?_ hfold
      intro a b _ hb hab
      exact entry_strLess d parentPkg hab (hplain b ((hfoldMem b).1 hb))
    · intro a ha b hb
      obtain ⟨f, hf, rfl⟩ := List.mem_map.1 hb
      have hpf := hplain f ((hfoldMem f).1 hf)
      rcases (hfixedMem a).1 ha with h | h
      · rw [h, restImport_eq]
        exact quoted_strLess_entry d parentPkg _ hpf
      · rw [h, contextImport_eq]
        exact quoted_strLess_entry d parentPkg _ hpf
  have hsorted := hstrict.imp (fun {a b} hab => (strLess_asymm a b hab : strLe a b))
  have hnodup : (sort.Strings ((collection.NewSet.AddStr (genRouteImports.restImport d)).AddStr
        (genRouteImports.contextImport d parentPkg)).keys ++
      (sort.Strings (resolvedFolders d api).dedup).map
        (genRouteImports.entry d parentPkg)).Nodup := by
    refine hstrict.imp ?_
    intro a b hab heq
    rw [heq, strLess_irrefl] at hab
    cases hab
  unfold genRouteImports.imports
  apply sort_Strings_unique _ hsorted
  refine List.Perm.trans ?_ (hK _).symm
  rw [List.perm_ext_iff_of_nodup hnodup (nodup_importSet d parentPkg api)]
  intro e
  rw [mem_importSet, List.mem_append, hfixedMem, List.mem_map]
  constructor
  · rintro ((h | h) | ⟨f, hf, h⟩)
    · exact Or.inl h
    · exact Or.inr (Or.inl h)
    · exact Or.inr (Or.inr ⟨f, (mem_resolvedFolders d api f).1 ((hfoldMem f).1 hf), h.symm⟩)
  · rintro (h | h | ⟨f, hf, h⟩)
    · exact Or.inl (Or.inl h)
    · exact Or.inl (Or.inr h)
    · exact Or.inr ⟨f, (hfoldMem f).2 ((mem_resolvedFolders d api f).2 hf), h.symm⟩

/-- C9, as amended. When every folder a route resolves to is a plain name (not
empty, first byte above the double quote, no byte at or below the space), the
sorted import list is the fixed imports followed by the folder-derived entries:
it is `fixed ++ folders.map entry`, where `fixed` holds exactly the two
fixed imports, once each, in strictly ascending order, and `folders` holds
exactly the resolved folders, once each, in strictly ascending order of folder
name. -/
theorem genRouteImports_fixed_imports_first (d : Deps) (hK : d.KeysStrEnumerates)
    (parentPkg : GoString) (api : spec.ApiSpec)
    (hplain : ∀ f ∈ resolvedFolders d api, plainFolder f = true) :
    ∃ fixed folders : List GoString,
      genRouteImports.imports d parentPkg api =
        fixed ++ folders.map (fun f =>
          f ++ utf8 " \"" ++ d.pathJoin [parentPkg, d.handlerDir, f] ++ utf8 "\"") ∧
      (∀ e, e ∈ fixed ↔ e = genRouteImports.restImport d ∨
        e = genRouteImports.contextImport d parentPkg) ∧
      fixed.Pairwise (fun a b => strLess a b = true) ∧
      (∀ f, f ∈ folders ↔ f ∈ resolvedFolders d api) ∧
      folders.Pairwise (fun a b => strLess a b = true) := by
  refine ⟨_, _, imports_eq_fixed_then_folders d hK parentPkg api hplain, ?_, ?_, ?_, ?_⟩
  · intro e
    rw [(sort_Strings_perm _).mem_iff, mem_AddStr, mem_AddStr]
    simp [collection.NewSet]
  · exact strictly_ascending_of_nodup (sort_Strings_sorted _)
      ((sort_Strings_perm _).nodup_iff.2 (nodup_AddStr _ _ (nodup_AddStr _ _ List.nodup_nil)))
  · intro f
    rw [(sort_Strings_perm _).mem_iff, List.mem_dedup]
  · exact strictly_ascending_of_nodup (sort_Strings_sorted _)
      ((sort_Strings_perm _).nodup_iff.2 (List.nodup_dedup _))

/-- C9, evaluated: folders `zeta` and `alpha` give the two fixed imports, then
the `alpha` entry, then the `zeta` entry. -/
theorem genRouteImports_fixed_imports_first_witness :
    sampleDeps.KeysStrEnumerates ∧
      (∀ f ∈ resolvedFolders sampleDeps witnessZetaAlpha, plainFolder f = true) ∧
      genRouteImports.imports sampleDeps (utf8 "pkg") witnessZetaAlpha =
        [ utf8 "\"github.com/tal-tech/go-zero/rest\"", utf8 "\"pkg/svc\"",
          utf8 "alpha \"pkg/handler/alpha\"", utf8 "zeta \"pkg/handler/zeta\"" ] ∧
      ∃ fixed folders : List GoString,
        genRouteImports.imports sampleDeps (utf8 "pkg") witnessZetaAlpha =
          fixed ++ folders.map (fun f =>
            f ++ utf8 " \"" ++ sampleDeps.pathJoin [utf8 "pkg", sampleDeps.handlerDir, f] ++
              utf8 "\"") ∧
        (∀ e, e ∈ fixed ↔ e = genRouteImports.restImport sampleDeps ∨
          e = genRouteImports.contextImport sampleDeps (utf8 "pkg")) ∧
        fixed.Pairwise (fun a b => strLess a b = true) ∧
        (∀ f, f ∈ folders ↔ f ∈ resolvedFolders sampleDeps witnessZetaAlpha) ∧
        folders.Pairwise (fun a b => strLess a b = true) :=
  ⟨sampleDeps_enumerates, by decide, by decide,
    genRouteImports_fixed_imports_first sampleDeps sampleDeps_enumerates (utf8 "pkg")
      witnessZetaAlpha (by decide)⟩

/-- C9 as stated fails: with the folder `!a` the sorted import list begins with
the folder-derived entry, and the two fixed imports come after it. -/
theorem genRouteImports_fixed_imports_first_counterexample :
    genRouteImports.imports sampleDeps (utf8 "pkg") witnessBangFolder =
        [ utf8 "!a \"pkg/handler/!a\"", utf8 "\"github.com/tal-tech/go-zero/rest\"",
          utf8 "\"pkg/svc\"" ] ∧
      genRouteImports.entry sampleDeps (utf8 "pkg") (utf8 "!a") = utf8 "!a \"pkg/handler/!a\"" ∧
      genRouteImports.restImport sampleDeps = utf8 "\"github.com/tal-tech/go-zero/rest\"" ∧
      genRouteImports.contextImport sampleDeps (utf8 "pkg") = utf8 "\"pkg/svc\"" ∧
      genRouteImports sampleDeps (utf8 "pkg") witnessBangFolder =
        utf8 "!a \"pkg/handler/!a\"\n\t\"github.com/tal-tech/go-zero/rest\"\n\t\"pkg/svc\"" := by
  refine ⟨?_, ?_, ?_, ?_, ?_⟩ <;> decide

/-! ## Capitalisation and the method table -/

/-- What the loop body has read when it appends a value. -/
theorem body_ok_inv {d : Deps} {g : spec.Group} {r : spec.Route} {x : route}
    (h : getRoutes.body d g r = .ok x) :
    ∃ v c rest, d.GetAnnotationValue r.Annotations (utf8 "server") (utf8 "handler") = (v, true) ∧
      d.getHandlerBaseName v ++ utf8 "Handler(serverCtx)" = c :: rest ∧
      x = ⟨mapping.index r.Method, r.Path,
        match resolveFolder d g r with
        | some folder => folder ++ utf8 "." ++ strings.ToUpperByte c ++ rest
        | none => d.getHandlerBaseName v ++ utf8 "Handler(serverCtx)"⟩ := by
  cases hl : lacksHandler d r with
  | true => rw [body_of_lacksHandler g hl] at h; cases h
  | false =>
    unfold lacksHandler at hl
    rcases hp : d.GetAnnotationValue r.Annotations (utf8 "server") (utf8 "handler") with ⟨v, b⟩
    rw [hp] at hl
    simp only [Bool.not_eq_false_eq_eq_true] at hl
    subst hl
    obtain ⟨c, rest, hc, hb⟩ := body_of_handler g hp
    rw [hb] at h
    cases h
    exact ⟨v, c, rest, rfl, hc, rfl⟩

theorem forall₂_mem_right {α β : Type} {R : α → β → Prop} {l₁ : List α} {l₂ : List β}
    (h : List.Forall₂ R l₁ l₂) : ∀ b ∈ l₂, ∃ a ∈ l₁, R a b := by
  induction h with
  | nil => intro b hb; simp at hb
  | cons hab _ ih =>
    intro b hb
    rcases List.mem_cons.1 hb with hb | hb
    · subst hb
      exact ⟨_, by simp, hab⟩
    · obtain ⟨a, ha, hr⟩ := ih b hb
      exact ⟨a, by simp [ha], hr⟩

/-- C11. At a handler name whose first letter takes two bytes (`élan`, folder
`user`) the code does not upper-case the first letter: `strings.ToUpper` is
applied to the first byte alone, `0xC3`, and gives U+FFFD (`0xEF 0xBF 0xBD`);
the second byte of the letter, `0xA9`, is left behind it. The expression with
the first letter upper-cased would be `user.ÉlanHandler(serverCtx)`. -/
theorem getRoutes_upper_cases_first_byte_only :
    sampleDeps.getHandlerBaseName (utf8 "élan") ++ utf8 "Handler(serverCtx)" =
        utf8 "élanHandler(serverCtx)" ∧
      getRoutes sampleDeps witnessAccent =
        .returns ([⟨[⟨utf8 "http.MethodGet", utf8 "/e",
          utf8 "user." ++ [0xEF, 0xBF, 0xBD, 0xA9] ++ utf8 "lanHandler(serverCtx)"⟩],
          false, false, []⟩], none) ∧
      utf8 "user." ++ [0xEF, 0xBF, 0xBD, 0xA9] ++ utf8 "lanHandler(serverCtx)" ≠
        utf8 "user.ÉlanHandler(serverCtx)" := by
  refine ⟨?_, ?_, ?_⟩ <;> decide

/-- C12, as amended. A route whose handler base name is `getUser` and whose
folder resolves to `user` is rendered as exactly
`user.GetUserHandler(serverCtx)`. -/
theorem getRoutes_renders_getUser (d : Deps) (api : spec.ApiSpec) (gs : List group)
    (i j : Nat) (g : spec.Group) (r : spec.Route) (h : GoString)
    (hok : getRoutes d api = .returns (gs, none))
    (hg : api.Service.Groups[i]? = some g) (hr : g.Routes[j]? = some r)
    (hh : d.GetAnnotationValue r.Annotations (utf8 "server") (utf8 "handler") = (h, true))
    (hbase : d.getHandlerBaseName h = utf8 "getUser")
    (hf : resolveFolder d g r = some (utf8 "user")) :
    ∃ gr x, gs[i]? = some gr ∧ gr.routes[j]? = some x ∧
      x.handler = utf8 "user.GetUserHandler(serverCtx)" := by
  obtain ⟨gr, x, hgr, hx, hbody⟩ := getRoutes_ok_at hok hg hr
  obtain ⟨c, rest, hc, hb⟩ := body_of_handler g hh
  rw [hb] at hbody
  cases hbody
  refine ⟨gr, _, hgr, hx, ?_⟩
  rw [hbase] at hc
  have hlit : utf8 "getUser" ++ utf8 "Handler(serverCtx)" =
      103 :: utf8 "etUserHandler(serverCtx)" := by decide
  rw [hlit] at hc
  cases hc
  simp only [hf]
  decide

/-- C12, evaluated on `witnessGetUser`. -/
theorem getRoutes_renders_getUser_witness :
    getRoutes sampleDeps witnessGetUser =
        .returns ([⟨[⟨utf8 "http.MethodGet", utf8 "/u",
          utf8 "user.GetUserHandler(serverCtx)"⟩], false, false, []⟩], none) ∧
      ∃ gr x, [(⟨[⟨utf8 "http.MethodGet", utf8 "/u",
          utf8 "user.GetUserHandler(serverCtx)"⟩], false, false, []⟩ : group)][0]? = some gr ∧
        gr.routes[0]? = some x ∧ x.handler = utf8 "user.GetUserHandler(serverCtx)" :=
  ⟨by decide,
    getRoutes_renders_getUser sampleDeps witnessGetUser _ 0 0
      ⟨sample.server [("folder", "user")], [sample.mkRoute "get" "/u" [("handler", "getUser")]]⟩
      (sample.mkRoute "get" "/u" [("handler", "getUser")]) (utf8 "getUser")
      (by decide) (by decide) (by decide) (by decide) (by decide) (by decide)⟩

/-- C12 as stated fails: for the base name `getUser` under folder `user` the code
renders `user.GetUserHandler(serverCtx)`, which is not
`user.GetUserHandler(serviceCtx)`. -/
theorem getRoutes_renders_getUser_counterexample :
    sampleDeps.getHandlerBaseName (utf8 "getUser") = utf8 "getUser" ∧
      getRoutes sampleDeps witnessGetUser =
        .returns ([⟨[⟨utf8 "http.MethodGet", utf8 "/u",
          utf8 "user.GetUserHandler(serverCtx)"⟩], false, false, []⟩], none) ∧
      utf8 "user.GetUserHandler(serverCtx)" ≠ utf8 "user.GetUserHandler(serviceCtx)" := by
  refine ⟨?_, ?_, ?_⟩ <;> decide

/-- C13. Method mapping: the table has exactly the five keys `delete`, `get`,
`head`, `post`, `put`, and the method of a resolved route whose method token is
one of them is the constant name the table gives it. -/
theorem getRoutes_method_mapping (d : Deps) (api : spec.ApiSpec) (gs : List group)
    (i j : Nat) (g : spec.Group) (r : spec.Route)
    (hok : getRoutes d api = .returns (gs, none))
    (hg : api.Service.Groups[i]? = some g) (hr : g.Routes[j]? = some r) :
    mapping.map Prod.fst = [utf8 "delete", utf8 "get", utf8 "head", utf8 "post", utf8 "put"] ∧
    ∃ gr x, gs[i]? = some gr ∧ gr.routes[j]? = some x ∧
      (r.Method = utf8 "delete" → x.method = utf8 "http.MethodDelete") ∧
      (r.Method = utf8 "get" → x.method = utf8 "http.MethodGet") ∧
      (r.Method = utf8 "head" → x.method = utf8 "http.MethodHead") ∧
      (r.Method = utf8 "post" → x.method = utf8 "http.MethodPost") ∧
      (r.Method = utf8 "put" → x.method = utf8 "http.MethodPut") := by
  refine ⟨by decide, ?_⟩
  obtain ⟨gr, x, hgr, hx, hbody⟩ := getRoutes_ok_at hok hg hr
  obtain ⟨v, c, rest, _, _, hxeq⟩ := body_ok_inv hbody
  have hmethod : x.method = mapping.index r.Method := by rw [hxeq]
  refine ⟨gr, x, hgr, hx, ?_, ?_, ?_, ?_, ?_⟩ <;>
  · intro hm
    rw [hmethod, hm]
    decide

/-- C13, evaluated on the first route of `witnessApi`, whose method token is
`get`. -/
theorem getRoutes_method_mapping_witness :
    getRoutes sampleDeps witnessApi = .returns (witnessGroups, none) ∧
      mapping.length = 5 ∧
      ∃ gr x, witnessGroups[0]? = some gr ∧ gr.routes[0]? = some x ∧
        x.method = utf8 "http.MethodGet" := by
  refine ⟨by decide, by decide, ?_⟩
  obtain ⟨_, gr, x, hgr, hx, _, hget, _⟩ :=
    getRoutes_method_mapping sampleDeps witnessApi witnessGroups 0 0
      ⟨sample.server [("folder", "b")],
        [ sample.mkRoute "get" "/x" [("handler", "getUser"), ("folder", "a")],
          sample.mkRoute "post" "/y" [("handler", "list")] ]⟩
      (sample.mkRoute "get" "/x" [("handler", "getUser"), ("folder", "a")])
      (by decide) (by decide) (by decide)
  exact ⟨gr, x, hgr, hx, hget (by decide)⟩

/-- C14. Unmapped method: when every route has a handler annotation,
`getRoutes` returns groups and no error whatever the method tokens are, and
the method of a resolved route whose token is not a key of the table is the
empty string. -/
theorem getRoutes_unmapped_method (d : Deps) (api : spec.ApiSpec)
    (hall : ∀ r ∈ traversal api, lacksHandler d r = false) :
    ∃ gs, getRoutes d api = .returns (gs, none) ∧
      ∀ (i j : Nat) (g : spec.Group) (r : spec.Route),
        api.Service.Groups[i]? = some g → g.Routes[j]? = some r →
        r.Method ∉ mapping.map Prod.fst →
        ∃ gr x, gs[i]? = some gr ∧ gr.routes[j]? = some x ∧ x.method = [] := by
  have hnone : (traversal api).find? (lacksHandler d) = none := by
    rw [List.find?_eq_none]
    intro r hr
    simp [hall r hr]
  obtain ⟨gs, hok⟩ := getRoutes_of_find_none hnone
  refine ⟨gs, hok, ?_⟩
  intro i j g r hg hr hm
  obtain ⟨gr, x, hgr, hx, hbody⟩ := getRoutes_ok_at hok hg hr
  obtain ⟨v, c, rest, _, _, hxeq⟩ := body_ok_inv hbody
  refine ⟨gr, x, hgr, hx, ?_⟩
  rw [hxeq]
  show mapping.index r.Method = []
  unfold mapping.index
  cases hl : mapping.lookup r.Method with
  | none => rfl
  | some v2 =>
    exfalso
    apply hm
    have hmem : ∀ (l : List (GoString × GoString)), l.lookup r.Method = some v2 →
        r.Method ∈ l.map Prod.fst := by
      intro l
      induction l with
      | nil => intro h0; simp at h0
      | cons p l ih =>
        intro h0
        obtain ⟨k, w⟩ := p
        rw [List.lookup_cons] at h0
        cases hk : r.Method == k with
        | true =>
          have : r.Method = k := by simpa using hk
          simp [this]
        | false =>
          rw [hk] at h0
          simp [ih h0]
    exact hmem mapping hl

/-- C14, evaluated on `witnessMethods`: the tokens `patch`, the empty string and
`GET` give the empty method. -/
theorem getRoutes_unmapped_method_witness :
    (∀ r ∈ traversal witnessMethods, lacksHandler sampleDeps r = false) ∧
      getRoutes sampleDeps witnessMethods = .returns (witnessMethodsGroups, none) ∧
      ∃ gs, getRoutes sampleDeps witnessMethods = .returns (gs, none) ∧
        ∀ (i j : Nat) (g : spec.Group) (r : spec.Route),
          witnessMethods.Service.Groups[i]? = some g → g.Routes[j]? = some r →
          r.Method ∉ mapping.map Prod.fst →
          ∃ gr x, gs[i]? = some gr ∧ gr.routes[j]? = some x ∧ x.method = [] :=
  ⟨by decide, by decide, getRoutes_unmapped_method sampleDeps witnessMethods (by decide)⟩

/-! ## The handler expression and the slice bounds -/

theorem getRoutes_never_panics (d : Deps) (api : spec.ApiSpec) : getRoutes d api ≠ .panics := by
  cases hf : (traversal api).find? (lacksHandler d) with
  | none =>
    obtain ⟨gs, hgs⟩ := getRoutes_of_find_none hf
    rw [hgs]
    intro h
    cases h
  | some r =>
    rw [getRoutes_of_find_some hf]
    intro h
    cases h

/-- The handler expression of a resolved route ends with the fixed suffix. -/
theorem body_ok_suffix {d : Deps} {g : spec.Group} {r : spec.Route} {x : route}
    (h : getRoutes.body d g r = .ok x) :
    ∃ pre, x.handler = pre ++ utf8 "Handler(serverCtx)" := by
  obtain ⟨v, c, rest, _, hc, hx⟩ := body_ok_inv h
  rw [hx]
  cases hf : resolveFolder d g r with
  | none => exact ⟨d.getHandlerBaseName v, rfl⟩
  | some f =>
    cases hb : d.getHandlerBaseName v with
    | nil =>
      rw [hb, handlerSuffix_eq] at hc
      simp only [List.nil_append, List.cons.injEq] at hc
      obtain ⟨hc1, hc2⟩ := hc
      subst hc1
      subst hc2
      refine ⟨f ++ utf8 ".", ?_⟩
      rw [handlerSuffix_eq]
      simp [strings.ToUpperByte]
    | cons b bs =>
      rw [hb] at hc
      simp only [List.cons_append, List.cons.injEq] at hc
      obtain ⟨hc1, hc2⟩ := hc
      subst hc1
      subst hc2
      exact ⟨f ++ utf8 "." ++ strings.ToUpperByte b ++ bs, by simp⟩

/-- C15. Handler invariant and indexing safety: `getRoutes` never panics, the
slice expressions of lines 165 and 169 are in range whatever the folder and
whatever `getHandlerBaseName` returns, and on success the handler expression
of every resolved route is not empty and ends with `Handler(serverCtx)`. -/
theorem getRoutes_handler_invariant (d : Deps) (api : spec.ApiSpec) :
    getRoutes d api ≠ .panics ∧
    (∀ folder base : GoString,
      getRoutes.qualify folder (base ++ utf8 "Handler(serverCtx)") ≠ none) ∧
    ∀ gs, getRoutes d api = .returns (gs, none) → ∀ gr ∈ gs, ∀ x ∈ gr.routes,
      x.handler ≠ [] ∧ ∃ pre, x.handler = pre ++ utf8 "Handler(serverCtx)" := by
  refine ⟨getRoutes_never_panics d api, ?_, ?_⟩
  · intro folder base
    obtain ⟨c, rest, _, hq⟩ := qualify_handler folder base
    rw [hq]
    intro h
    cases h
  · intro gs hok gr hgr x hx
    obtain ⟨g, _, xs, hxs, hf⟩ := forall₂_mem_right (getRoutes_ok hok) gr hgr
    rw [hxs] at hx
    obtain ⟨r, _, hbody⟩ := forall₂_mem_right hf x hx
    obtain ⟨pre, hpre⟩ := body_ok_suffix hbody
    refine ⟨?_, pre, hpre⟩
    rw [hpre, handlerSuffix_eq]
    simp

/-- C15, evaluated on `witnessEmptyBase`, where `getHandlerBaseName` returns the
empty string. -/
theorem getRoutes_handler_invariant_witness :
    sampleDeps.getHandlerBaseName (utf8 "Handler") = [] ∧
      getRoutes sampleDeps witnessEmptyBase =
        .returns ([⟨[⟨utf8 "http.MethodGet", utf8 "/h", utf8 "user.Handler(serverCtx)"⟩],
          false, false, []⟩], none) ∧
      getRoutes sampleDeps witnessEmptyBase ≠ .panics :=
  ⟨by decide, by decide, (getRoutes_handler_invariant sampleDeps witnessEmptyBase).1⟩

/-! ## The two folder resolutions -/

theorem forall₂_mem_left {α β : Type} {R : α → β → Prop} {l₁ : List α} {l₂ : List β}
    (h : List.Forall₂ R l₁ l₂) : ∀ a ∈ l₁, ∃ b ∈ l₂, R a b := by
  induction h with
  | nil => intro a ha; simp at ha
  | cons hab _ ih =>
    intro a ha
    rcases List.mem_cons.1 ha with ha | ha
    · subst ha
      exact ⟨_, by simp, hab⟩
    · obtain ⟨b, hb, hr⟩ := ih a ha
      exact ⟨b, by simp [hb], hr⟩

/-- C16. The folder resolution of `genRouteImports` is that of `getRoutes`. On
a successful `getRoutes`, for every route: either `getRoutes` qualifies its
handler with a folder `f` and the turn of the loop of `genRouteImports` for
this route adds the entry of `f` (which is in the import list), or `getRoutes`
leaves the handler unqualified and the turn adds nothing. And every entry of
the import list other than the two fixed ones is the entry of a folder that
qualifies some resolved handler. -/
theorem folder_resolution_agrees (d : Deps) (hK : d.KeysStrEnumerates) (parentPkg : GoString)
    (api : spec.ApiSpec) (gs : List group) (hok : getRoutes d api = .returns (gs, none)) :
    (∀ (i j : Nat) (g : spec.Group) (r : spec.Route),
      api.Service.Groups[i]? = some g → g.Routes[j]? = some r →
      ∃ gr x v c rest, gs[i]? = some gr ∧ gr.routes[j]? = some x ∧
        d.GetAnnotationValue r.Annotations (utf8 "server") (utf8 "handler") = (v, true) ∧
        d.getHandlerBaseName v ++ utf8 "Handler(serverCtx)" = c :: rest ∧
        ((∃ f, x.handler = f ++ utf8 "." ++ strings.ToUpperByte c ++ rest ∧
            (∀ rs s, genRouteImports.inner d parentPkg g (r :: rs) s =
              genRouteImports.inner d parentPkg g rs (s.AddStr
                (f ++ utf8 " \"" ++ d.pathJoin [parentPkg, d.handlerDir, f] ++ utf8 "\""))) ∧
            f ++ utf8 " \"" ++ d.pathJoin [parentPkg, d.handlerDir, f] ++ utf8 "\"" ∈
              genRouteImports.imports d parentPkg api) ∨
          (x.handler = c :: rest ∧
            ∀ rs s, genRouteImports.inner d parentPkg g (r :: rs) s =
              genRouteImports.inner d parentPkg g rs s))) ∧
    (∀ e ∈ genRouteImports.imports d parentPkg api,
      e = genRouteImports.restImport d ∨ e = genRouteImports.contextImport d parentPkg ∨
      ∃ (i j : Nat) (gr : group) (x : route) (f : GoString) (c : Nat) (rest : GoString),
        gs[i]? = some gr ∧ gr.routes[j]? = some x ∧
        e = f ++ utf8 " \"" ++ d.pathJoin [parentPkg, d.handlerDir, f] ++ utf8 "\"" ∧
        x.handler = f ++ utf8 "." ++ strings.ToUpperByte c ++ rest) := by
  constructor
  · intro i j g r hg hr
    obtain ⟨gr, x, hgr, hx, hbody⟩ := getRoutes_ok_at hok hg hr
    obtain ⟨v, c, rest, hv, hc, hxeq⟩ := body_ok_inv hbody
    refine ⟨gr, x, v, c, rest, hgr, hx, hv, hc, ?_⟩
    cases hf : resolveFolder d g r with
    | none =>
      right
      refine ⟨by rw [hxeq, hf]; exact hc, ?_⟩
      intro rs s
      rw [imports_inner_cons, hf]
    | some f =>
      left
      refine ⟨f, by rw [hxeq, hf], ?_, ?_⟩
      · intro rs s
        rw [imports_inner_cons, hf]
        rfl
      · rw [mem_imports d hK]
        exact Or.inr (Or.inr ⟨f, ⟨g, List.mem_iff_getElem?.2 ⟨i, hg⟩, r, List.mem_iff_getElem?.2 ⟨j, hr⟩, hf⟩, rfl⟩)
  · intro e he
    rcases (mem_imports d hK parentPkg api e).1 he with h | h | ⟨f, ⟨g, hg, r, hr, hf⟩, h⟩
    · exact Or.inl h
    · exact Or.inr (Or.inl h)
    · right
      right
      obtain ⟨i, hi⟩ := List.mem_iff_getElem?.1 hg
      obtain ⟨j, hj⟩ := List.mem_iff_getElem?.1 hr
      obtain ⟨gr, x, hgr, hx, hbody⟩ := getRoutes_ok_at hok hi hj
      obtain ⟨v, c, rest, _, _, hxeq⟩ := body_ok_inv hbody
      exact ⟨i, j, gr, x, f, c, rest, hgr, hx, h, by rw [hxeq, hf]⟩

/-- C16, evaluated on `witnessApi`: the entries of folders `a` and `b`, which
qualify the two handlers of the first group, are in the import list. -/
theorem folder_resolution_agrees_witness :
    sampleDeps.KeysStrEnumerates ∧
      getRoutes sampleDeps witnessApi = .returns (witnessGroups, none) ∧
      genRouteImports.imports sampleDeps (utf8 "pkg") witnessApi =
        [ utf8 "\"github.com/tal-tech/go-zero/rest\"", utf8 "\"pkg/svc\"",
          utf8 "a \"pkg/handler/a\"", utf8 "b \"pkg/handler/b\"" ] ∧
      (utf8 "a \"pkg/handler/a\"" = genRouteImports.restImport sampleDeps ∨
        utf8 "a \"pkg/handler/a\"" = genRouteImports.contextImport sampleDeps (utf8 "pkg") ∨
        ∃ (i j : Nat) (gr : group) (x : route) (f : GoString) (c : Nat) (rest : GoString),
          witnessGroups[i]? = some gr ∧ gr.routes[j]? = some x ∧
          utf8 "a \"pkg/handler/a\"" =
            f ++ utf8 " \"" ++ sampleDeps.pathJoin [utf8 "pkg", sampleDeps.handlerDir, f] ++
              utf8 "\"" ∧
          x.handler = f ++ utf8 "." ++ strings.ToUpperByte c ++ rest) :=
  ⟨sampleDeps_enumerates, by decide, by decide,
    (folder_resolution_agrees sampleDeps sampleDeps_enumerates (utf8 "pkg") witnessApi
      witnessGroups (by decide)).2 (utf8 "a \"pkg/handler/a\"") (by decide)⟩

/-! ## Independence of the order of groups and routes -/

theorem resolveFolder_congr (d : Deps) {g g2 : spec.Group} (h : g2.Annotations = g.Annotations)
    (r : spec.Route) : resolveFolder d g2 r = resolveFolder d g r := by
  unfold resolveFolder
  rw [h]

/-- C17. The result of `genRouteImports` does not depend on the order of the
groups nor on the order of the routes inside the groups: a specification
whose groups are a permutation of the groups of another one gives the same
string, and so does a specification whose groups are, one by one, the groups
of the other with their routes permuted. -/
theorem genRouteImports_order_independent (d : Deps) (hK : d.KeysStrEnumerates)
    (parentPkg : GoString) (api api2 : spec.ApiSpec) :
    (api2.Service.Groups.Perm api.Service.Groups →
      genRouteImports d parentPkg api2 = genRouteImports d parentPkg api) ∧
    (List.Forall₂ (fun g g2 => g2.Annotations = g.Annotations ∧ g2.Routes.Perm g.Routes)
        api.Service.Groups api2.Service.Groups →
      genRouteImports d parentPkg api2 = genRouteImports d parentPkg api) := by
  constructor
  · intro hp
    apply imports_congr_folders d hK
    intro f
    unfold resolvesTo
    constructor
    · rintro ⟨g, hg, rest⟩
      exact ⟨g, hp.mem_iff.1 hg, rest⟩
    · rintro ⟨g, hg, rest⟩
      exact ⟨g, hp.mem_iff.2 hg, rest⟩
  · intro hf
    apply imports_congr_folders d hK
    intro f
    unfold resolvesTo
    constructor
    · rintro ⟨g2, hg2, r, hr, hres⟩
      obtain ⟨g, hg, hann, hperm⟩ := forall₂_mem_right hf g2 hg2
      exact ⟨g, hg, r, hperm.mem_iff.1 hr, by rw [← resolveFolder_congr d hann r]; exact hres⟩
    · rintro ⟨g, hg, r, hr, hres⟩
      obtain ⟨g2, hg2, hann, hperm⟩ := forall₂_mem_left hf g hg
      exact ⟨g2, hg2, r, hperm.mem_iff.2 hr, by rw [resolveFolder_congr d hann r]; exact hres⟩

/-- C17, evaluated: `witnessApiPermuted` has the groups of `witnessApi` in
another order and the routes of one group exchanged. -/
theorem genRouteImports_order_independent_witness :
    sampleDeps.KeysStrEnumerates ∧
      genRouteImports sampleDeps (utf8 "pkg") witnessApiPermuted =
        genRouteImports sampleDeps (utf8 "pkg") witnessApi ∧
      genRouteImports sampleDeps (utf8 "pkg")
          (sample.mkApi (witnessApi.Service.Groups.reverse)) =
        genRouteImports sampleDeps (utf8 "pkg") witnessApi :=
  ⟨sampleDeps_enumerates, by decide,
    (genRouteImports_order_independent sampleDeps sampleDeps_enumerates (utf8 "pkg") witnessApi
      (sample.mkApi (witnessApi.Service.Groups.reverse))).1
      (List.reverse_perm witnessApi.Service.Groups)⟩

/-! ## `genRoutes` -/

/-- C18. Abort before any output: when `getRoutes` returns an error, `genRoutes`
returns that error and has made no outside call: it has not looked up the
parent package, nor removed, created or written the routes file. -/
theorem genRoutes_aborts_before_output (d : Deps) (env : Env) (dir : GoString)
    (api : spec.ApiSpec) (gs : List group) (msg : GoString)
    (h : getRoutes d api = .returns (gs, some msg)) :
    genRoutes d env dir api = .returns (some msg, []) := by
  unfold genRoutes
  rw [h]

/-- C18, evaluated on `witnessMissingHandler`; on `witnessApi`, where
`getRoutes` succeeds, the routes file is removed, created, written and
closed. -/
theorem genRoutes_aborts_before_output_witness :
    getRoutes sampleDeps witnessMissingHandler =
        .returns ([], some (utf8 "missing handler annotation for route \"/b\"")) ∧
      genRoutes sampleDeps sampleEnv (utf8 "dir") witnessMissingHandler =
        .returns (some (utf8 "missing handler annotation for route \"/b\""), []) ∧
      (match genRoutes sampleDeps sampleEnv (utf8 "dir") witnessApi with
        | .returns (err, calls) => (err, calls.length, calls.take 3, calls.getLast?)
        | .panics => (none, 0, [], none)) =
        (none, 5, [.getParentPackage (utf8 "dir"),
          .RemoveOrQuit (utf8 "dir/handler/routes.go"),
          .MaybeCreateFile (utf8 "dir") (utf8 "handler") (utf8 "routes.go")], some .Close) :=
  ⟨by decide,
    genRoutes_aborts_before_output sampleDeps sampleEnv (utf8 "dir") witnessMissingHandler []
      (utf8 "missing handler annotation for route \"/b\"") (by decide),
    by decide⟩

/-- The loop of `genRoutes` over groups without middleware flags passes the
empty string for `jwt` and for `signature`. -/
theorem outer_of_no_middleware (env : Env) :
    ∀ (gs : List group) (builder : GoString),
      (∀ gr ∈ gs, gr.jwtEnabled = false ∧ gr.signatureEnabled = false) →
      genRoutes.outer env gs builder =
        genRoutes.outer { env with ExecuteGroup := fun routes _ _ => env.ExecuteGroup routes [] [] }
          gs builder
  | [], _, _ => rfl
  | g :: gs, builder, h => by
    have hg := h g (by simp)
    have hj : genRoutes.jwt g = [] := by simp [genRoutes.jwt, hg.1]
    have hs : genRoutes.signature g = [] := by simp [genRoutes.signature, hg.2]
    simp only [genRoutes.outer, hj, hs]
    rcases env.ExecuteGroup (env.TrimSpace (genRoutes.inner g.routes [])) [] [] with ⟨text, err⟩
    cases err with
    | some e => rfl
    | none => exact outer_of_no_middleware env gs _ (fun gr hgr => h gr (by simp [hgr]))

/-- C19. Middleware flags are never set by the resolution pass: every group a
successful `getRoutes` returns has `jwtEnabled = false`, `signatureEnabled =
false` and `authName = ""`, the `jwt` and `signature` strings `genRoutes`
computes for it are empty, and `genRoutes` runs as if the template were always
given the empty string for both. -/
theorem getRoutes_sets_no_middleware (d : Deps) (api : spec.ApiSpec) (gs : List group)
    (hok : getRoutes d api = .returns (gs, none)) :
    (∀ gr ∈ gs, gr.jwtEnabled = false ∧ gr.signatureEnabled = false ∧ gr.authName = [] ∧
      genRoutes.jwt gr = [] ∧ genRoutes.signature gr = []) ∧
    ∀ (env : Env) (dir : GoString),
      genRoutes d env dir api =
        genRoutes d { env with ExecuteGroup := fun routes _ _ => env.ExecuteGroup routes [] [] }
          dir api := by
  have hflags : ∀ gr ∈ gs, gr.jwtEnabled = false ∧ gr.signatureEnabled = false ∧
      gr.authName = [] := by
    intro gr hgr
    obtain ⟨g, _, xs, hxs, _⟩ := forall₂_mem_right (getRoutes_ok hok) gr hgr
    rw [hxs]
    exact ⟨rfl, rfl, rfl⟩
  constructor
  · intro gr hgr
    obtain ⟨h1, h2, h3⟩ := hflags gr hgr
    exact ⟨h1, h2, h3, by simp [genRoutes.jwt, h1], by simp [genRoutes.signature, h2]⟩
  · intro env dir
    unfold genRoutes
    rw [hok]
    simp only
    rw [← outer_of_no_middleware env gs [] (fun gr hgr => ⟨(hflags gr hgr).1, (hflags gr hgr).2.1⟩)]

/-- C19, evaluated on `witnessApi`. -/
theorem getRoutes_sets_no_middleware_witness :
    getRoutes sampleDeps witnessApi = .returns (witnessGroups, none) ∧
      ∀ gr ∈ witnessGroups, gr.jwtEnabled = false ∧ gr.signatureEnabled = false ∧
        gr.authName = [] ∧ genRoutes.jwt gr = [] ∧ genRoutes.signature gr = [] :=
  ⟨by decide,
    (getRoutes_sets_no_middleware sampleDeps witnessApi witnessGroups (by decide)).1⟩

/-! ## `strings.ToUpper` on the first byte -/

/-- On an ASCII first byte the code upper-cases a lower-case letter and leaves
any other byte as it is. -/
theorem ToUpperByte_of_ascii {c : Nat} (h : c < 128) :
    strings.ToUpperByte c = [if 97 ≤ c ∧ c ≤ 122 then c - 32 else c] := by
  unfold strings.ToUpperByte
  rw [if_pos h]
  split_ifs <;> rfl

/-- On a first byte from `0x80` on, whatever letter it begins, the code writes
the three bytes of U+FFFD. -/
theorem ToUpperByte_of_not_ascii {c : Nat} (h : 128 ≤ c) :
    strings.ToUpperByte c = [0xEF, 0xBF, 0xBD] := by
  unfold strings.ToUpperByte
  rw [if_neg (by omega)]

/-! ## Folder qualification of a handler that begins with a letter of two bytes -/

/-- C2. At a route with handler `élan` and its own `server.folder = a`, in a
group with `server.folder = b`, the code does select `a` and not `b`, but what
follows `a.` is not the capitalised handler call: `strings.ToUpper` is applied
to the first byte alone, `0xC3`, and gives U+FFFD (`0xEF 0xBF 0xBD`), with the
second byte of the letter, `0xA9`, left behind it. With the capitalised call the
expression would be `a.ÉlanHandler(serverCtx)`. -/
theorem getRoutes_route_folder_first_byte_only :
    sampleDeps.GetAnnotationValue (sample.server [("handler", "élan"), ("folder", "a")])
        (utf8 "server") folderProperty = (utf8 "a", true) ∧
      sampleDeps.GetAnnotationValue (sample.server [("folder", "b")])
        (utf8 "server") folderProperty = (utf8 "b", true) ∧
      sampleDeps.getHandlerBaseName (utf8 "élan") ++ utf8 "Handler(serverCtx)" =
        utf8 "élanHandler(serverCtx)" ∧
      getRoutes sampleDeps witnessAccentRoute =
        .returns ([⟨[⟨utf8 "http.MethodGet", utf8 "/e",
          utf8 "a." ++ [0xEF, 0xBF, 0xBD, 0xA9] ++ utf8 "lanHandler(serverCtx)"⟩],
          false, false, []⟩], none) ∧
      utf8 "a." ++ [0xEF, 0xBF, 0xBD, 0xA9] ++ utf8 "lanHandler(serverCtx)" ≠
        utf8 "a.ÉlanHandler(serverCtx)" := by
  refine ⟨?_, ?_, ?_, ?_, ?_⟩ <;> decide

/-- C3. At a route with handler `élan` and no folder of its own, in a group with
`server.folder = b`, the code does fall back to `b`, but what follows `b.` is
not the capitalised handler call: `strings.ToUpper` is applied to the first
byte alone, `0xC3`, and gives U+FFFD (`0xEF 0xBF 0xBD`), with the second byte
of the letter, `0xA9`, left behind it. With the capitalised call the expression
would be `b.ÉlanHandler(serverCtx)`. -/
theorem getRoutes_group_folder_first_byte_only :
    (sampleDeps.GetAnnotationValue (sample.server [("handler", "élan")])
        (utf8 "server") folderProperty).2 = false ∧
      sampleDeps.GetAnnotationValue (sample.server [("folder", "b")])
        (utf8 "server") folderProperty = (utf8 "b", true) ∧
      sampleDeps.getHandlerBaseName (utf8 "élan") ++ utf8 "Handler(serverCtx)" =
        utf8 "élanHandler(serverCtx)" ∧
      getRoutes sampleDeps witnessAccentGroup =
        .returns ([⟨[⟨utf8 "http.MethodGet", utf8 "/e",
          utf8 "b." ++ [0xEF, 0xBF, 0xBD, 0xA9] ++ utf8 "lanHandler(serverCtx)"⟩],
          false, false, []⟩], none) ∧
      utf8 "b." ++ [0xEF, 0xBF, 0xBD, 0xA9] ++ utf8 "lanHandler(serverCtx)" ≠
        utf8 "b.ÉlanHandler(serverCtx)" := by
  refine ⟨?_, ?_, ?_, ?_, ?_⟩ <;> decide

end gogen
